import Mathlib

/-!
Verification of the jomql query-execution engine (big213/jamesql).

We give a shallow embedding of the engine's core functions
(`validateExternalArgs`, `generateJomqlResolverTree`,
`processJomqlResolverTree`, `validateJomqlResults`, `validateResultFields`,
`validateResultNullish`, `handleAggregatedQueries`) over an explicit model
of JavaScript values, and prove properties of the embedding.

Modelling conventions:
* JavaScript values are modelled by the inductive type `JValue`
  (`undefined` and `null` are distinct constructors; plain objects are
  association lists in insertion order; arrays are lists).
* Thrown `JomqlArgsError` / `JomqlQueryError` / `JomqlResultError` objects
  are modelled by `Except` with the error type `JomqlError`; fallible
  user-supplied callbacks (`parseValue`, `serialize`, `inputsValidator`)
  are modelled as `Except`-returning functions.
* Recursive walks are given explicit fuel; exhausted fuel yields the
  distinguished error `JomqlError.outOfFuel`, which corresponds to no
  behaviour of the source program (theorems are stated at sufficient fuel).
* In-place mutation of result rows (`handleAggregatedQueries`) is modelled
  by returning the post-state of the mutated array; for
  `processJomqlResolverTree`, where object identity itself is at stake, we
  use an explicit heap of objects and reference values.
-/

/-- Model of a JavaScript runtime value as it appears in queries, args and
results. `vlookupSymbol` models the module-level `lookupSymbol` sentinel. -/
inductive JValue : Type where
  | vnull : JValue
  | vundefined : JValue
  | vbool (b : Bool) : JValue
  | vint (n : Int) : JValue
  | vstr (s : String) : JValue
  | varr (elems : List JValue) : JValue
  | vobj (fields : List (String × JValue)) : JValue
  | vlookupSymbol : JValue

namespace JValue

mutual

/-- Structural equality on values (models `===` on primitives; on objects and
arrays it is structural where JavaScript would compare references, which is
faithful for the primitive keys the engine deduplicates). -/
def beq : JValue → JValue → Bool
  | .vnull, .vnull => true
  | .vundefined, .vundefined => true
  | .vbool a, .vbool b => a == b
  | .vint a, .vint b => a == b
  | .vstr a, .vstr b => a == b
  | .varr xs, .varr ys => beqList xs ys
  | .vobj xs, .vobj ys => beqObj xs ys
  | .vlookupSymbol, .vlookupSymbol => true
  | _, _ => false

def beqList : List JValue → List JValue → Bool
  | [], [] => true
  | x :: xs, y :: ys => beq x y && beqList xs ys
  | _, _ => false

def beqObj : List (String × JValue) → List (String × JValue) → Bool
  | [], [] => true
  | (k, x) :: xs, (l, y) :: ys => k == l && beq x y && beqObj xs ys
  | _, _ => false

end

mutual

theorem beq_iff : ∀ a b : JValue, beq a b = true ↔ a = b
  | .vnull, b => by cases b <;> simp [beq]
  | .vundefined, b => by cases b <;> simp [beq]
  | .vbool a, b => by cases b <;> simp [beq]
  | .vint a, b => by cases b <;> simp [beq]
  | .vstr a, b => by cases b <;> simp [beq]
  | .varr xs, b => by
      cases b <;> simp [beq]
      exact beqList_iff xs _
  | .vobj xs, b => by
      cases b <;> simp [beq]
      exact beqObj_iff xs _
  | .vlookupSymbol, b => by cases b <;> simp [beq]

theorem beqList_iff : ∀ xs ys : List JValue, beqList xs ys = true ↔ xs = ys
  | [], ys => by cases ys <;> simp [beqList]
  | x :: xs, ys => by
      cases ys with
      | nil => simp [beqList]
      | cons y ys =>
          simp [beqList, Bool.and_eq_true, beq_iff x y, beqList_iff xs ys]

theorem beqObj_iff : ∀ xs ys : List (String × JValue), beqObj xs ys = true ↔ xs = ys
  | [], ys => by cases ys <;> simp [beqObj]
  | (k, x) :: xs, ys => by
      cases ys with
      | nil => simp [beqObj]
      | cons y ys =>
          obtain ⟨l, v⟩ := y
          simp [beqObj, Bool.and_eq_true, beq_iff x v, beqObj_iff xs ys]

end

instance : DecidableEq JValue := fun a b =>
  decidable_of_iff (beq a b = true) (beq_iff a b)

/-- `isObject` from `helpers/jomql.ts`: true exactly for plain objects. -/
def isObj : JValue → Bool
  | .vobj _ => true
  | _ => false

/-- Arrays, as tested by `Array.isArray`. -/
def isArr : JValue → Bool
  | .varr _ => true
  | _ => false

/-- JavaScript truthiness (`if (x)`): `null`, `undefined`, `false`, `0` and
the empty string are falsy; objects, arrays and symbols are truthy. -/
def jsTruthy : JValue → Bool
  | .vnull => false
  | .vundefined => false
  | .vbool b => b
  | .vint n => !(n == 0)
  | .vstr s => !(s == "")
  | .varr _ => true
  | .vobj _ => true
  | .vlookupSymbol => true

end JValue

/-- Property read `o[k]` on an association list: first matching key, as in a
JavaScript object (whose keys are unique). -/
def objGet (kvs : List (String × JValue)) (k : String) : JValue :=
  match kvs.find? (fun kv => kv.1 = k) with
  | some kv => kv.2
  | none => .vundefined

/-- Property read `v[k]` on an arbitrary value: `undefined` off objects
(property access on primitives yields `undefined`; the engine only reads
fields of objects it has checked, or of values it assumes are rows). -/
def getField (v : JValue) (k : String) : JValue :=
  match v with
  | .vobj kvs => objGet kvs k
  | _ => .vundefined

/-- Property write `o[k] = x` on an association list: overwrite in place if
the key exists (keeping its position), else append, as in a JavaScript
object. -/
def objSet (kvs : List (String × JValue)) (k : String) (x : JValue) :
    List (String × JValue) :=
  if kvs.any (fun kv => kv.1 = k) then
    kvs.map (fun kv => if kv.1 = k then (k, x) else kv)
  else
    kvs ++ [(k, x)]

/-- Property write `v[k] = x`: updates objects, silently no-ops on
non-objects (the engine only assigns into values it has guarded). -/
def setField (v : JValue) (k : String) (x : JValue) : JValue :=
  match v with
  | .vobj kvs => .vobj (objSet kvs k x)
  | _ => v

/-- `delete o[k]` on an association list. -/
def objDelete (kvs : List (String × JValue)) (k : String) :
    List (String × JValue) :=
  kvs.filter (fun kv => kv.1 ≠ k)

/-- The keys of an object, in insertion order (`Object.keys`). -/
def objKeys (kvs : List (String × JValue)) : List String :=
  kvs.map Prod.fst

/-- `Set.add` over a list representation of a JavaScript `Set` (insertion
order, first occurrence kept). -/
def jsSetAdd (acc : List JValue) (v : JValue) : List JValue :=
  if v ∈ acc then acc else acc ++ [v]

/-- `new Set(xs)` for strings: deduplicate keeping first occurrences. -/
def jsStringSet (xs : List String) : List String :=
  xs.foldl (fun acc k => if k ∈ acc then acc else acc ++ [k]) []

/-- `Map.set` over an association-list representation of a JavaScript `Map`:
overwrite the value if the key is present (keeping its position), else
append. -/
def jsMapSet (m : List (JValue × JValue)) (k : JValue) (v : JValue) :
    List (JValue × JValue) :=
  if m.any (fun kv => kv.1 = k) then
    m.map (fun kv => if kv.1 = k then (k, v) else kv)
  else
    m ++ [(k, v)]

/-- `Map.get`: the stored value, or `undefined` when the key is absent. -/
def jsMapGet (m : List (JValue × JValue)) (k : JValue) : JValue :=
  match m.find? (fun kv => kv.1 = k) with
  | some kv => kv.2
  | none => .vundefined

/-- The engine's error taxonomy: `JomqlArgsError`, `JomqlQueryError` and
`JomqlResultError` (each carrying a message and the field path at which it
was raised). `outOfFuel` is an artifact of the fueled embedding and
corresponds to no behaviour of the source program. -/
inductive JomqlError : Type where
  | argsError (message : String) (fieldPath : List String) : JomqlError
  | queryError (message : String) (fieldPath : List String) : JomqlError
  | resultError (message : String) (fieldPath : List String) : JomqlError
  | outOfFuel : JomqlError
  deriving DecidableEq, Repr

/-- `arrayOptions` on a field or argument definition. -/
structure ArrayOptions : Type where
  allowNullElement : Bool
  deriving DecidableEq, Repr

/-- A `JomqlScalarType`'s definition: a name plus the optional `parseValue`
and `serialize` transforms. The transforms may throw, modelled by
`Except String` (the `String` standing for an arbitrary thrown exception). -/
structure ScalarDefinition : Type where
  name : String
  parseValue : Option (JValue → Except String JValue) := none
  serialize : Option (JValue → Except String JValue) := none

/-- An `inputsValidator` callback: it may throw an arbitrary engine error. -/
def InputsValidator : Type := JValue → List String → Except JomqlError Unit

/-- The `definition` record of a `JomqlInputFieldType` (the class wrapper's
single `definition` field is flattened away), parametric in the type of the
`type` member so that the recursive knot can be tied below. -/
structure InputFieldDef (τ : Type) : Type where
  type : τ
  required : Bool
  allowNull : Bool
  arrayOptions : Option ArrayOptions := none

/-- The `type` member of an input field definition: a `JomqlScalarType`, a
`JomqlInputType` (name, fields, optional `inputsValidator`), or a
`JomqlInputTypeLookup` resolved against `inputTypeDefs` at use time. -/
inductive InputDefType : Type where
  | scalar (sd : ScalarDefinition) : InputDefType
  | input (iname : String) (fields : List (String × InputFieldDef InputDefType))
      (inputsValidator : Option InputsValidator) : InputDefType
  | inputLookup (lname : String) : InputDefType

/-- `JomqlInputFieldType` with the recursion closed. -/
abbrev JomqlInputFieldType := InputFieldDef InputDefType

/-- The process-wide `inputTypeDefs` registry. -/
abbrev InputTypeDefs := List (String × InputDefType)

/-- Field lookup in a definition map (`fields[key]` on unique JS keys). -/
def defGet {α : Type} (kvs : List (String × α)) (k : String) : Option α :=
  (kvs.find? (fun kv => kv.1 = k)).map Prod.snd

/-- The keys of `arg` that remain unvalidated after every declared field of
the Input type has been processed: `keysToValidate` in the source, a
`Set` built from `Object.keys(arg)` from which each declared key is
deleted. -/
def unknownKeys (kvs : List (String × JValue))
    (fields : List (String × JomqlInputFieldType)) : List String :=
  (jsStringSet (objKeys kvs)).filter (fun k => ¬ k ∈ fields.map Prod.fst)

/-- The `Object.entries(fields).forEach` loop of `validateExternalArgs`
(lines 569-582): validate each declared key of `arg` through `ea` (the
recursive call at the remaining fuel), deleting keys whose validated value
is `undefined` and overwriting the rest in place. Returns the post-state of
the mutated `arg` entries. -/
def validateArgFields
    (ea : JValue → Option JomqlInputFieldType → List String → Except JomqlError JValue)
    (fields : List (String × JomqlInputFieldType))
    (kvs : List (String × JValue)) (fieldPath : List String) :
    Except JomqlError (List (String × JValue)) :=
  fields.foldlM
    (fun acc kv => do
      let validatedArg ← ea (objGet acc kv.1) (some kv.2) (fieldPath ++ [kv.1])
      if validatedArg = .vundefined then pure (objDelete acc kv.1)
      else pure (objSet acc kv.1 validatedArg))
    kvs

/-- One element of the `argsArray` loop of `validateExternalArgs`
(lines 559-597): a non-object element is rejected unless `allowNull`; an
object element has its declared fields validated (and mutated in place),
then any remaining unknown keys raise a single `JomqlArgsError` listing all
of them, then `inputsValidator` runs. Returns the element's post-state. -/
def validateArgElement
    (ea : JValue → Option JomqlInputFieldType → List String → Except JomqlError JValue)
    (fields : List (String × JomqlInputFieldType))
    (inputsValidator : Option InputsValidator)
    (allowNull : Bool) (fieldPath : List String) (arg : JValue) :
    Except JomqlError JValue := do
  if ¬arg.isObj ∧ ¬allowNull then
    throw (.argsError "Object expected" fieldPath)
  else
    match arg with
    | .vobj kvs => do
        let kvs' ← validateArgFields ea fields kvs fieldPath
        -- keysToValidate = new Set(Object.keys(arg)) minus every declared key
        if unknownKeys kvs fields ≠ [] then
          throw (.argsError
            ("Unknown args '" ++
              String.intercalate "," (unknownKeys kvs fields) ++ "'")
            fieldPath)
        else
          match inputsValidator with
          | some v => do
              v (.vobj kvs') fieldPath
              pure (.vobj kvs')
          | none => pure (.vobj kvs')
    | _ => pure arg

/-- `validateExternalArgs` (helpers/jomql.ts lines 468-629): validates and
coerces `args` against `argDefinition`, returning `parsedArgs ?? args`
where `args` is the (possibly mutated in place) input and `parsedArgs` is
only set by a scalar `parseValue`. `JValue.vundefined` models both an
absent `args` and the `return;` statements. -/
def validateExternalArgs (inputTypeDefs : InputTypeDefs) :
    Nat → JValue → Option JomqlInputFieldType → List String →
    Except JomqlError JValue
  | 0, _, _, _ => .error .outOfFuel
  | n + 1, args, argDefinition, fieldPath => do
    match argDefinition with
    | none =>
        -- if no argDefinition and args provided, throw error
        if args.jsTruthy then throw (.argsError "Not expecting any args" fieldPath)
        else pure .vundefined
    | some argDef => do
        -- if no arg required and args is undefined, return
        if ¬argDef.required ∧ args = .vundefined then pure .vundefined
        -- if argDefinition.required and args is undefined, throw err
        else if argDef.required ∧ args = .vundefined then
          throw (.argsError "Args is required" fieldPath)
        -- if !argDefinition.allowNull and args is null, throw err
        else if ¬argDef.allowNull ∧ args = .vnull then
          throw (.argsError "Null field is not allowed" fieldPath)
        else do
          -- array-shape checks
          match argDef.arrayOptions with
          | some _ =>
              if argDef.allowNull ∧ ¬args.isArr ∧ args ≠ .vnull then
                throw (.argsError "Field must be Array or null" fieldPath)
              else if ¬argDef.allowNull ∧ ¬args.isArr then
                throw (.argsError "Array expected" fieldPath)
              else pure ()
          | none => pure ()
          -- if lookup field, convert from map
          let argDefType ←
            match argDef.type with
            | .inputLookup lname =>
                match defGet inputTypeDefs lname with
                | none =>
                    throw (.argsError ("Unknown inputDef '" ++ lname ++ "'") fieldPath)
                | some d => pure d
            | t => pure t
          match argDefType with
          | .input _ fields inputsValidator => do
              -- if argDefinition.type is inputTypeDefinition: process argsArray
              match argDef.arrayOptions, args with
              | some ao, .varr elems => do
                  if ¬ao.allowNullElement ∧ elems.any (fun e => e = .vnull) then
                    throw
                      (.argsError "Null field is not allowed on array element" fieldPath)
                  else do
                    let elems' ← elems.mapM
                      (validateArgElement (validateExternalArgs inputTypeDefs n)
                        fields inputsValidator argDef.allowNull fieldPath)
                    -- parsedArgs stays undefined; the mutated array is returned
                    pure (.varr elems')
              | _, _ => do
                  validateArgElement (validateExternalArgs inputTypeDefs n)
                    fields inputsValidator argDef.allowNull fieldPath args
          | .scalar sd =>
              -- attempt to parseValue args; if arg is null, skip
              match sd.parseValue with
              | some parseValue =>
                  if args ≠ .vnull then
                    let parsed :
                        Except String JValue :=
                      match argDef.arrayOptions, args with
                      | some _, .varr elems => do
                          pure (.varr (← elems.mapM parseValue))
                      | _, _ => parseValue args
                    match parsed with
                    | .ok parsedArgs =>
                        -- return parsedArgs ?? args
                        if parsedArgs = .vundefined ∨ parsedArgs = .vnull then pure args
                        else pure parsedArgs
                    | .error _ =>
                        -- transform any errors thrown into a JomqlArgsError
                        throw (.argsError
                          ("Invalid scalar value for '" ++ sd.name ++ "'") fieldPath)
                  else pure args
              | none => pure args
          | .inputLookup _ =>
              -- unreachable: lookups were resolved above; args unchanged
              pure args

instance {ε α : Type} [DecidableEq ε] [DecidableEq α] :
    DecidableEq (Except ε α) := fun a b =>
  match a, b with
  | .ok x, .ok y =>
      if h : x = y then isTrue (by rw [h]) else isFalse (by simp [h])
  | .error x, .error y =>
      if h : x = y then isTrue (by rw [h]) else isFalse (by simp [h])
  | .ok _, .error _ => isFalse (by simp)
  | .error _, .ok _ => isFalse (by simp)

theorem except_throw {ε α : Type} (e : ε) :
    (throw e : Except ε α) = Except.error e := rfl

theorem except_pure {ε α : Type} (a : α) :
    (pure a : Except ε α) = Except.ok a := rfl

theorem except_ok_bind {ε α β : Type} (a : α) (f : α → Except ε β) :
    Except.ok a >>= f = f a := rfl

theorem except_error_bind {ε α β : Type} (e : ε) (f : α → Except ε β) :
    (Except.error e : Except ε α) >>= f = Except.error e := rfl

-- Concrete schema fragments used by the witness theorems below.

/-- A plain string scalar type with no transforms. -/
def strScalar : ScalarDefinition := { name := "string" }

/-- A required argument of scalar type. -/
def requiredStrArg : JomqlInputFieldType :=
  { type := .scalar strScalar, required := true, allowNull := true }

/-- A `parseValue` that always throws. -/
def rangeErrParse : JValue → Except String JValue := fun _ => .error "RangeError"

/-- A scalar whose `parseValue` always throws. -/
def positiveNumberScalar : ScalarDefinition :=
  { name := "positiveNumber", parseValue := some rangeErrParse }

/-- An argument of that scalar type. -/
def positiveNumberArg : JomqlInputFieldType :=
  { type := .scalar positiveNumberScalar, required := false, allowNull := false }

/-- A `parseValue` that maps every input to `null`. -/
def nullifyParse : JValue → Except String JValue := fun _ => .ok .vnull

/-- A scalar whose `parseValue` returns `null`. -/
def nullifyScalar : ScalarDefinition :=
  { name := "nullify", parseValue := some nullifyParse }

/-- An argument of that scalar type. -/
def nullifyArg : JomqlInputFieldType :=
  { type := .scalar nullifyScalar, required := false, allowNull := false }

/-- A plain number scalar type with no transforms. -/
def numberScalar : ScalarDefinition := { name := "number" }

/-- The single declared field of the witness Input type. -/
def limitArg : JomqlInputFieldType :=
  { type := .scalar numberScalar, required := false, allowNull := true }

/-- Declared fields of the witness Input type: only `limit`. -/
def filterInputFields : List (String × JomqlInputFieldType) := [("limit", limitArg)]

/-- An Input-typed argument declaring only `limit`. -/
def filterInputArg : JomqlInputFieldType :=
  { type := .input "filterInput" filterInputFields none,
    required := false, allowNull := false }

/-- A supplied argument object carrying two keys the Input type does not
declare. -/
def unknownKeysObj : List (String × JValue) :=
  [("limit", .vint 5), ("unknown", .vint 1), ("extra", .vbool true)]

/-- The input record handed to a field resolver (`ResolverFunctionInput`,
minus the opaque express `req`): the embedded functions only test a
resolver for presence, but the type is kept faithful in shape. -/
structure ResolverInput : Type where
  fieldPath : List String
  args : JValue
  query : JValue
  fieldValue : JValue
  parentValue : JValue
  data : JValue

/-- A field resolver; it may throw. -/
def ResolverFunction : Type := ResolverInput → Except JomqlError JValue

/-- `ObjectTypeDefinitionField` (and the shared shape of
`RootResolverDefinition`), parametric in the type of the `type` member so
that the recursive knot can be tied below. -/
structure ObjectField (τ : Type) : Type where
  type : τ
  allowNull : Bool
  arrayOptions : Option ArrayOptions := none
  args : Option JomqlInputFieldType := none
  resolver : Option ResolverFunction := none
  defer : Bool := false
  hidden : Bool := false

/-- The `type` member of an output field: a `JomqlScalarType`, a
`JomqlObjectType` (name plus field map), or a `JomqlObjectTypeLookup`
resolved against `objectTypeDefs` at use time. -/
inductive JomqlObjType : Type where
  | scalar (sd : ScalarDefinition) : JomqlObjType
  | object (oname : String) (fields : List (String × ObjectField JomqlObjType)) :
      JomqlObjType
  | objectLookup (lname : String) : JomqlObjType

/-- `ObjectTypeDefinitionField` with the recursion closed. -/
abbrev ObjectTypeDefinitionField := ObjectField JomqlObjType

/-- The process-wide `objectTypeDefs` registry. -/
abbrev ObjectTypeDefs := List (String × JomqlObjType)

/-- `fieldType instanceof JomqlObjectType`. -/
def isObjectType : JomqlObjType → Bool
  | .object _ _ => true
  | _ => false

/-- A node of the generated resolver tree (`JomqlResolverNode`): the
originating field definition, the sub-query stripped of `__args`, the
raw args, and the optionally-built children. -/
inductive JomqlResolverNode : Type where
  | mk (typeDef : ObjectTypeDefinitionField) (query : List (String × JValue))
      (args : JValue) (nested : Option (List (String × JomqlResolverNode))) :
      JomqlResolverNode

def JomqlResolverNode.typeDef : JomqlResolverNode → ObjectTypeDefinitionField
  | .mk td _ _ _ => td

def JomqlResolverNode.query : JomqlResolverNode → List (String × JValue)
  | .mk _ q _ _ => q

def JomqlResolverNode.args : JomqlResolverNode → JValue
  | .mk _ _ a _ => a

def JomqlResolverNode.nested :
    JomqlResolverNode → Option (List (String × JomqlResolverNode))
  | .mk _ _ _ ns => ns

/-- `"__args" in fieldValue && Object.keys(fieldValue).length === 1`: the
only shape a keyed structure may take under a leaf field. -/
def hasOnlyArgsKey : JValue → Bool
  | .vobj kvs => decide ("__args" ∈ objKeys kvs) && (objKeys kvs).length == 1
  | _ => false

/-- `resolverObject.args?.definition.required`. -/
def argsRequired (ro : ObjectTypeDefinitionField) : Bool :=
  match ro.args with
  | some a => a.required
  | none => false

/-- The `for (const field in fieldValue)` loop of
`generateJomqlResolverTree` (lines 898-929): skip `__args`, reject unknown
and hidden fields, and recurse through `gen` (the recursive call at the
remaining fuel) only when `fullTree || !resolverObject.resolver`;
`acc` is the `nestedNodes` object built so far. -/
def buildNestedNodes
    (gen : JValue → ObjectTypeDefinitionField → List String → Bool →
      Except JomqlError JomqlResolverNode)
    (fields : List (String × ObjectTypeDefinitionField))
    (hasResolver fullTree : Bool) (fieldPath : List String) :
    List (String × JValue) → List (String × JomqlResolverNode) →
    Except JomqlError (List (String × JomqlResolverNode))
  | [], acc => pure acc
  | kv :: rest, acc =>
      if kv.1 = "__args" then
        buildNestedNodes gen fields hasResolver fullTree fieldPath rest acc
      else
        match defGet fields kv.1 with
        | none => throw (.queryError "Unknown field" (fieldPath ++ [kv.1]))
        | some fd =>
            if fd.hidden then
              throw (.queryError "Hidden field" (fieldPath ++ [kv.1]))
            else if fullTree ∨ ¬hasResolver then do
              let child ← gen kv.2 fd (fieldPath ++ [kv.1]) fullTree
              buildNestedNodes gen fields hasResolver fullTree fieldPath rest
                (acc ++ [(kv.1, child)])
            else
              buildNestedNodes gen fields hasResolver fullTree fieldPath rest acc

/-- The body of `generateJomqlResolverTree` after the `fieldType` lookup has
been resolved (lines 833-938): validate the shape of `fieldValue`, split
off and validate `__args` (through `ea`, the args validator at the
remaining fuel), and build the nested children through `gen` (the
recursive call at the remaining fuel; no recursion past a field with its
own resolver unless `fullTree`). The in-place mutation of the `__args`
object by `validateExternalArgs` is not tracked: the node keeps the raw
destructured `args` (`__args ?? null`). -/
def generateResolvedNode
    (gen : JValue → ObjectTypeDefinitionField → List String → Bool →
      Except JomqlError JomqlResolverNode)
    (ea : JValue → Option JomqlInputFieldType → List String →
      Except JomqlError JValue)
    (lookupValue : JValue) (fieldValue : JValue)
    (resolverObject : ObjectTypeDefinitionField) (fieldPath : List String)
    (fullTree : Bool) (fieldType : JomqlObjType) :
    Except JomqlError JomqlResolverNode :=
  let isLookupField :=
    fieldValue = lookupValue ∨ fieldValue = .vlookupSymbol
  let isLeafNode := ¬ isObjectType fieldType
  -- field must either be lookupValue OR an object
  if ¬isLookupField ∧ ¬fieldValue.isObj then
    throw (.queryError "Invalid field RHS" fieldPath)
  -- if leafNode and nested, MUST be only with __args
  else if isLeafNode ∧ fieldValue.isObj ∧ ¬ hasOnlyArgsKey fieldValue then
    throw (.queryError "Scalar node can only accept __args and no other field"
      fieldPath)
  -- if not leafNode and isLookupField, deny
  else if ¬isLeafNode ∧ isLookupField then
    throw (.queryError "Resolved node must be an object with nested fields"
      fieldPath)
  -- if field is scalar and args is required, and not object, throw err
  else if isLeafNode ∧ argsRequired resolverObject ∧ ¬fieldValue.isObj then
    throw (.queryError "Args required" fieldPath)
  else
    match fieldValue with
    | .vobj kvs => do
        -- validate args, if any
        _ ← ea (objGet kvs "__args") resolverObject.args
          (fieldPath ++ ["__args"])
        -- const { __args: args = null, ...query } = fieldValue
        let args :=
          match objGet kvs "__args" with
          | .vundefined => JValue.vnull
          | v => v
        let query := objDelete kvs "__args"
        match fieldType with
        | .object _ tfields => do
            let nestedNodes ←
              buildNestedNodes gen tfields resolverObject.resolver.isSome
                fullTree fieldPath kvs []
            pure (.mk resolverObject query args (some nestedNodes))
        | _ => pure (.mk resolverObject query args none)
    | _ => pure (.mk resolverObject [] .vnull none)

/-- `generateJomqlResolverTree` (helpers/jomql.ts lines 813-938): resolve
the field type against `objectTypeDefs` when it is a lookup, then defer to
`generateResolvedNode`. -/
def generateJomqlResolverTree (objectTypeDefs : ObjectTypeDefs)
    (inputTypeDefs : InputTypeDefs) (lookupValue : JValue) :
    Nat → JValue → ObjectTypeDefinitionField → List String → Bool →
    Except JomqlError JomqlResolverNode
  | 0, _, _, _, _ => .error .outOfFuel
  | n + 1, fieldValue, resolverObject, fieldPath, fullTree =>
    -- if lookup, attempt to convert to a TypeDefinition
    match resolverObject.type with
    | .objectLookup lname =>
        match defGet objectTypeDefs lname with
        | none =>
            throw (.queryError ("TypeDef '" ++ lname ++ "' not found")
              fieldPath)
        | some t =>
            generateResolvedNode
              (generateJomqlResolverTree objectTypeDefs inputTypeDefs
                lookupValue n)
              (validateExternalArgs inputTypeDefs n) lookupValue fieldValue
              resolverObject fieldPath fullTree t
    | t =>
        generateResolvedNode
          (generateJomqlResolverTree objectTypeDefs inputTypeDefs
            lookupValue n)
          (validateExternalArgs inputTypeDefs n) lookupValue fieldValue
          resolverObject fieldPath fullTree t

-- Concrete schema fragments used by the C2/C7 theorems below.

/-- An object type with no fields, registered under "Foo". -/
def fooObjType : JomqlObjType := .object "Foo" []

/-- A registry holding only `Foo`. -/
def fooRegistry : ObjectTypeDefs := [("Foo", fooObjType)]

/-- A resolver that returns null. -/
def trivialResolver : ResolverFunction := fun _ => .ok .vnull

/-- An object-typed field owning its own resolver. -/
def resolverFieldDef : ObjectTypeDefinitionField :=
  { type := .objectLookup "Foo", allowNull := true,
    resolver := some trivialResolver }

/-- A scalar leaf field with no args. -/
def strLeafField : ObjectTypeDefinitionField :=
  { type := .scalar strScalar, allowNull := true }

/-- C6: for every argument definition with `required` set to true,
`validateExternalArgs` called with `args === undefined` raises
`JomqlArgsError` ("Args is required"); it never returns a default value
silently. -/
theorem validateExternalArgs_required_undefined_throws
    (inputTypeDefs : InputTypeDefs) (n : Nat) (ad : JomqlInputFieldType)
    (fieldPath : List String) (hreq : ad.required = true) :
    validateExternalArgs inputTypeDefs (n + 1) .vundefined (some ad) fieldPath =
      .error (.argsError "Args is required" fieldPath) := by
  simp [validateExternalArgs, hreq, except_throw]

theorem validateExternalArgs_required_undefined_throws_witness :
    requiredStrArg.required = true ∧
    validateExternalArgs [] 1 .vundefined (some requiredStrArg) ["q"] =
      .error (.argsError "Args is required" ["q"]) :=
  ⟨rfl, validateExternalArgs_required_undefined_throws [] 0 requiredStrArg
    ["q"] rfl⟩

/-- C5: for every Scalar-typed argument with a `parseValue` transform and
every non-null (and defined) input, an exception thrown by `parseValue` is
caught and re-raised as a `JomqlArgsError` with an "Invalid scalar value"
message; the original exception (here an arbitrary `s : String`) never
propagates to the caller. -/
theorem validateExternalArgs_parse_exception_wrapped
    (inputTypeDefs : InputTypeDefs) (n : Nat) (sd : ScalarDefinition)
    (pf : JValue → Except String JValue) (req anull : Bool) (v : JValue)
    (s : String) (fieldPath : List String)
    (hpf : sd.parseValue = some pf)
    (hv1 : v ≠ .vnull) (hv2 : v ≠ .vundefined)
    (herr : pf v = .error s) :
    validateExternalArgs inputTypeDefs (n + 1) v
      (some { type := .scalar sd, required := req, allowNull := anull,
              arrayOptions := none }) fieldPath =
      .error (.argsError ("Invalid scalar value for '" ++ sd.name ++ "'")
        fieldPath) := by
  simp [validateExternalArgs, hv1, hv2, hpf, herr, except_throw]

theorem validateExternalArgs_parse_exception_wrapped_witness :
    positiveNumberScalar.parseValue = some rangeErrParse ∧
    (JValue.vint (-5) ≠ .vnull) ∧ (JValue.vint (-5) ≠ .vundefined) ∧
    rangeErrParse (.vint (-5)) = .error "RangeError" ∧
    validateExternalArgs [] 1 (.vint (-5)) (some positiveNumberArg) ["a"] =
      .error (.argsError "Invalid scalar value for 'positiveNumber'" ["a"]) :=
  ⟨rfl, by decide, by decide, rfl,
    validateExternalArgs_parse_exception_wrapped [] 0 positiveNumberScalar
      rangeErrParse false false (.vint (-5)) "RangeError" ["a"] rfl
      (by decide) (by decide) rfl⟩

/-- C10: for every Scalar-typed argument whose `parseValue` returns `null`
or `undefined` on a non-null (and defined) input, `validateExternalArgs`
returns the original raw argument value — the return value is
`parsedArgs ?? args` — so a parse transform can never map a non-null input
to null. -/
theorem validateExternalArgs_parse_nullish_returns_raw
    (inputTypeDefs : InputTypeDefs) (n : Nat) (sd : ScalarDefinition)
    (pf : JValue → Except String JValue) (req anull : Bool) (v r : JValue)
    (fieldPath : List String)
    (hpf : sd.parseValue = some pf)
    (hv1 : v ≠ .vnull) (hv2 : v ≠ .vundefined)
    (hok : pf v = .ok r) (hr : r = .vnull ∨ r = .vundefined) :
    validateExternalArgs inputTypeDefs (n + 1) v
      (some { type := .scalar sd, required := req, allowNull := anull,
              arrayOptions := none }) fieldPath = .ok v := by
  rcases hr with hr | hr <;>
    simp [validateExternalArgs, hv1, hv2, hpf, hok, hr, except_pure,
      except_ok_bind]

theorem validateExternalArgs_parse_nullish_returns_raw_witness :
    nullifyScalar.parseValue = some nullifyParse ∧
    (JValue.vstr "x" ≠ .vnull) ∧ (JValue.vstr "x" ≠ .vundefined) ∧
    nullifyParse (.vstr "x") = .ok .vnull ∧
    (JValue.vnull = .vnull ∨ JValue.vnull = .vundefined) ∧
    validateExternalArgs [] 1 (.vstr "x") (some nullifyArg) [] =
      .ok (.vstr "x") :=
  ⟨rfl, by decide, by decide, rfl, Or.inl rfl,
    validateExternalArgs_parse_nullish_returns_raw [] 0 nullifyScalar
      nullifyParse false false (.vstr "x") .vnull [] rfl (by decide)
      (by decide) rfl (Or.inl rfl)⟩

/-- C4: for every Input-typed argument object, once all declared fields have
been validated (hypothesis `hfields`), any remaining unrecognized keys make
`validateExternalArgs` raise exactly one `JomqlArgsError` whose message
enumerates all of the offending keys together — never one error per key,
and never silent acceptance. -/
theorem validateExternalArgs_unknown_keys_single_error
    (inputTypeDefs : InputTypeDefs) (n : Nat) (iname : String)
    (fields : List (String × JomqlInputFieldType))
    (validator : Option InputsValidator) (req anull : Bool)
    (kvs kvs' : List (String × JValue)) (fieldPath : List String)
    (hfields : validateArgFields (validateExternalArgs inputTypeDefs n)
        fields kvs fieldPath = .ok kvs')
    (hleft : unknownKeys kvs fields ≠ []) :
    validateExternalArgs inputTypeDefs (n + 1) (.vobj kvs)
      (some { type := .input iname fields validator, required := req,
              allowNull := anull, arrayOptions := none }) fieldPath =
      .error (.argsError
        ("Unknown args '" ++
          String.intercalate "," (unknownKeys kvs fields) ++ "'")
        fieldPath) := by
  simp [validateExternalArgs, validateArgElement, hfields, hleft,
    JValue.isObj, except_throw, except_ok_bind]

theorem validateExternalArgs_unknown_keys_single_error_witness :
    validateArgFields (validateExternalArgs [] 1) filterInputFields
      unknownKeysObj [] = .ok unknownKeysObj ∧
    unknownKeys unknownKeysObj filterInputFields ≠ [] ∧
    validateExternalArgs [] 2 (.vobj unknownKeysObj) (some filterInputArg) [] =
      .error (.argsError "Unknown args 'unknown,extra'" []) := by
  refine ⟨by decide, by decide, ?_⟩
  have h := validateExternalArgs_unknown_keys_single_error [] 1 "filterInput"
    filterInputFields none false false unknownKeysObj unknownKeysObj []
    (by decide) (by decide)
  simpa using h


theorem ite_throw_ok {c : Prop} [Decidable c] {e : JomqlError} {α : Type}
    {x : Except JomqlError α} {a : α}
    (h : (if c then throw e else x) = .ok a) : x = .ok a := by
  split at h
  · simp [except_throw] at h
  · exact h

theorem except_bind_ok_elim {ε α β : Type} {m : Except ε α}
    {f : α → Except ε β} {b : β}
    (h : m >>= f = .ok b) : ∃ a, m = .ok a ∧ f a = .ok b := by
  cases m with
  | ok a => exact ⟨a, rfl, h⟩
  | error e => simp [except_error_bind] at h

/-- Helper: with `fullTree = false` under a field owning a resolver, the
`nestedNodes` loop checks every queried field but never appends a child. -/
theorem buildNestedNodes_resolver_skips
    (gen : JValue → ObjectTypeDefinitionField → List String → Bool →
      Except JomqlError JomqlResolverNode)
    (fields : List (String × ObjectTypeDefinitionField))
    (fieldPath : List String) :
    ∀ (kvs : List (String × JValue)) (acc res : List (String × JomqlResolverNode)),
      buildNestedNodes gen fields true false fieldPath kvs acc = .ok res →
      res = acc := by
  intro kvs
  induction kvs with
  | nil =>
      intro acc res h
      simp [buildNestedNodes, except_pure] at h
      exact h.symm
  | cons kv rest ih =>
      intro acc res h
      by_cases hk : kv.1 = "__args"
      · simp [buildNestedNodes, hk] at h
        exact ih acc res h
      · rcases hd : defGet fields kv.1 with _ | fd
        · simp [buildNestedNodes, hk, hd, except_throw] at h
        · by_cases hh : fd.hidden
          · simp [buildNestedNodes, hk, hd, hh, except_throw] at h
          · simp [buildNestedNodes, hk, hd, hh] at h
            exact ih acc res h

/-- Helper for the amended C2: once the field type is resolved, a node built
under a resolver-owning field with `fullTree = false` carries no children. -/
theorem generateResolvedNode_resolver_defers
    (gen : JValue → ObjectTypeDefinitionField → List String → Bool →
      Except JomqlError JomqlResolverNode)
    (ea : JValue → Option JomqlInputFieldType → List String →
      Except JomqlError JValue)
    (lv : JValue) (kvs : List (String × JValue))
    (ro : ObjectTypeDefinitionField) (fieldPath : List String)
    (t : JomqlObjType) (node : JomqlResolverNode)
    (hres : ro.resolver.isSome = true)
    (hok : generateResolvedNode gen ea lv (.vobj kvs) ro fieldPath false t =
      .ok node) :
    node.nested = none ∨ node.nested = some [] := by
  unfold generateResolvedNode at hok
  replace hok := ite_throw_ok hok
  replace hok := ite_throw_ok hok
  replace hok := ite_throw_ok hok
  replace hok := ite_throw_ok hok
  rcases except_bind_ok_elim hok with ⟨va, _, hok⟩
  cases t with
  | scalar sd =>
      simp only [except_pure, Except.ok.injEq] at hok
      subst hok
      left
      rfl
  | objectLookup lname =>
      simp only [except_pure, Except.ok.injEq] at hok
      subst hok
      left
      rfl
  | object oname tfields =>
      rw [hres] at hok
      rcases except_bind_ok_elim hok with ⟨l, hb, hok⟩
      simp only [except_pure, Except.ok.injEq] at hok
      subst hok
      right
      rw [JomqlResolverNode.nested,
        buildNestedNodes_resolver_skips gen tfields fieldPath kvs [] l hb]

/-- C7: for every leaf (non-Object-typed) field whose query value is a keyed
object, `generateJomqlResolverTree` raises `JomqlQueryError` unless the
object contains exactly one key and that key is `__args`. -/
theorem generateJomqlResolverTree_leaf_args_only
    (odefs : ObjectTypeDefs) (idefs : InputTypeDefs) (lv : JValue) (n : Nat)
    (sd : ScalarDefinition) (ro : ObjectTypeDefinitionField)
    (kvs : List (String × JValue)) (fieldPath : List String) (fullTree : Bool)
    (htype : ro.type = .scalar sd)
    (hks : hasOnlyArgsKey (.vobj kvs) = false) :
    generateJomqlResolverTree odefs idefs lv (n + 1) (.vobj kvs) ro fieldPath
        fullTree =
      .error (.queryError "Scalar node can only accept __args and no other field"
        fieldPath) := by
  simp [generateJomqlResolverTree, generateResolvedNode, htype, hks,
    JValue.isObj, isObjectType, except_throw, except_ok_bind]

theorem generateJomqlResolverTree_leaf_args_only_witness :
    strLeafField.type = .scalar strScalar ∧
    hasOnlyArgsKey (.vobj [("id", .vlookupSymbol)]) = false ∧
    generateJomqlResolverTree fooRegistry [] .vnull 1
        (.vobj [("id", .vlookupSymbol)]) strLeafField [] false =
      .error (.queryError "Scalar node can only accept __args and no other field"
        []) :=
  ⟨rfl, by decide,
    generateJomqlResolverTree_leaf_args_only fooRegistry [] .vnull 0 strScalar
      strLeafField [("id", .vlookupSymbol)] [] false rfl (by decide)⟩

/-- C2 counterexample: an object-typed field with its own resolver, queried
with an (empty) object value under `fullTree = false`, yields a node whose
`nested` is the empty mapping, not `undefined`. -/
theorem generateJomqlResolverTree_resolver_nested_cex :
    (generateJomqlResolverTree fooRegistry [] .vnull 2 (.vobj [])
        resolverFieldDef [] false).map (fun nd => nd.nested) =
      .ok (some []) ∧
    (Except.ok (some ([] : List (String × JomqlResolverNode))) :
        Except JomqlError (Option (List (String × JomqlResolverNode)))) ≠
      .ok none := by
  constructor
  · rfl
  · intro h
    simp at h

/-- C2 (amended): for every field definition that has its own resolver,
`generateJomqlResolverTree` with `fullTree = false` on an object-shaped
field value returns a node carrying no child resolver nodes — `nested` is
`undefined` when the resolved type is not an Object type, and the empty
mapping (not `undefined`) when it is. -/
theorem generateJomqlResolverTree_resolver_defers_children
    (odefs : ObjectTypeDefs) (idefs : InputTypeDefs) (lv : JValue) (n : Nat)
    (ro : ObjectTypeDefinitionField) (kvs : List (String × JValue))
    (fieldPath : List String) (node : JomqlResolverNode)
    (hres : ro.resolver.isSome = true)
    (hok : generateJomqlResolverTree odefs idefs lv (n + 1) (.vobj kvs) ro
        fieldPath false = .ok node) :
    node.nested = none ∨ node.nested = some [] := by
  rw [generateJomqlResolverTree] at hok
  split at hok
  · split at hok
    · simp [except_throw] at hok
    · exact generateResolvedNode_resolver_defers _ _ _ _ _ _ _ _ hres hok
  · exact generateResolvedNode_resolver_defers _ _ _ _ _ _ _ _ hres hok

theorem generateJomqlResolverTree_resolver_defers_children_witness :
    resolverFieldDef.resolver.isSome = true ∧
    generateJomqlResolverTree fooRegistry [] .vnull 2 (.vobj [])
        resolverFieldDef [] false =
      .ok (.mk resolverFieldDef [] .vnull (some [])) ∧
    ((JomqlResolverNode.mk resolverFieldDef [] .vnull (some [])).nested = none ∨
      (JomqlResolverNode.mk resolverFieldDef [] .vnull (some [])).nested =
        some []) :=
  ⟨rfl, rfl,
    generateJomqlResolverTree_resolver_defers_children fooRegistry [] .vnull 1
      resolverFieldDef [] [] (.mk resolverFieldDef [] .vnull (some [])) rfl rfl⟩

/-- `validateResultNullish` (helpers/jomql.ts lines 783-799): a nullish
value is rejected unless allowed — by `arrayOptions.allowNullElement` when
the value is an array element, by `allowNull` otherwise. -/
def validateResultNullish (value : JValue)
    (resolverObject : ObjectTypeDefinitionField) (fieldPath : List String)
    (arrayOptions : Option ArrayOptions) : Except JomqlError Unit :=
  let isNullAllowed :=
    match arrayOptions with
    | some ao => ao.allowNullElement
    | none => resolverObject.allowNull
  if (value = .vnull ∨ value = .vundefined) ∧ isNullAllowed = false then
    throw (.resultError
      (match arrayOptions with
        | some _ => "Null value not allowed for array element"
        | none => "Null value not allowed")
      fieldPath)
  else pure ()

/-- `validateResultFields` (helpers/jomql.ts lines 745-780): under
`arrayOptions` the value must be an array (elements checked individually)
or, when `allowNull`, exactly null; otherwise a single nullish check. -/
def validateResultFields (value : JValue)
    (resolverObject : ObjectTypeDefinitionField) (fieldPath : List String) :
    Except JomqlError Unit :=
  match resolverObject.arrayOptions with
  | some _ =>
      match value with
      | .varr elems =>
          elems.forM (fun ele =>
            validateResultNullish ele resolverObject fieldPath
              resolverObject.arrayOptions)
      | _ =>
          if ¬resolverObject.allowNull then
            throw (.resultError "Array expected" fieldPath)
          else if value ≠ .vnull then
            -- field must be null
            throw (.resultError "Array or null expected" fieldPath)
          else pure ()
  | none =>
      validateResultNullish value resolverObject fieldPath
        resolverObject.arrayOptions

/-- The `for (const field in jomqlResolverNode.nested)` result-rebuild loop
of `validateJomqlResults`: each declared child is validated through `vjr`
(the recursive call at the remaining fuel) against `src[field]`, and the
results are accumulated into a fresh object in declaration order. -/
def buildNestedResults
    (vjr : JValue → JomqlResolverNode → List String → Except JomqlError JValue)
    (nestedMap : List (String × JomqlResolverNode)) (src : JValue)
    (fieldPath : List String) :
    Except JomqlError (List (String × JValue)) :=
  nestedMap.foldlM
    (fun acc fkv => do
      let v ← vjr (getField src fkv.1) fkv.2 (fieldPath ++ [fkv.1])
      pure (acc ++ [(fkv.1, v)]))
    []

/-- `validateJomqlResults` (helpers/jomql.ts lines 632-742): walk the result
tree against the resolver tree, enforcing null/array shape and applying
scalar serialization on the leaves (serialization exceptions re-raised as
`JomqlResultError`). -/
def validateJomqlResults (objectTypeDefs : ObjectTypeDefs) :
    Nat → JValue → JomqlResolverNode → List String → Except JomqlError JValue
  | 0, _, _, _ => .error .outOfFuel
  | n + 1, jomqlResultsNode, jomqlResolverNode, fieldPath =>
    match jomqlResolverNode.nested with
    | some nestedMap =>
        -- if output is null, cut the tree short and return
        if jomqlResultsNode = .vnull then pure .vnull
        else
          match jomqlResolverNode.typeDef.arrayOptions with
          | some _ =>
              match jomqlResultsNode with
              | .varr elems => do
                  let elems' ← elems.mapM (fun ele => do
                    let built ←
                      buildNestedResults
                        (validateJomqlResults objectTypeDefs n) nestedMap ele
                        fieldPath
                    pure (JValue.vobj built))
                  pure (.varr elems')
              | _ =>
                  -- if field is not Array or null, throw err
                  throw (.resultError "Expecting array or null" fieldPath)
          | none =>
              -- if no nested fields requested, return empty object
              if nestedMap.length < 1 then
                pure (if jomqlResultsNode.isObj then .vobj [] else .vnull)
              else if ¬jomqlResultsNode.isObj then
                throw (.resultError "Expecting object" fieldPath)
              else do
                let built ←
                  buildNestedResults (validateJomqlResults objectTypeDefs n)
                    nestedMap jomqlResultsNode fieldPath
                pure (.vobj built)
    | none => do
        -- check for nulls and ensure array fields are arrays
        validateResultFields jomqlResultsNode jomqlResolverNode.typeDef
          fieldPath
        -- resolve the field type
        let fieldType ←
          match jomqlResolverNode.typeDef.type with
          | .objectLookup lname =>
              match defGet objectTypeDefs lname with
              | none =>
                  throw (.queryError ("TypeDef '" ++ lname ++ "' not found")
                    fieldPath)
              | some t => pure t
          | t => pure t
        match fieldType with
        | .object _ _ => pure jomqlResultsNode
        | .scalar sd =>
            match sd.serialize with
            | some serializeFn =>
                -- if field is null, skip
                if jomqlResultsNode ≠ .vnull ∧ jomqlResultsNode ≠ .vundefined
                then
                  let serialized : Except String JValue :=
                    match jomqlResolverNode.typeDef.arrayOptions,
                        jomqlResultsNode with
                    | some _, .varr elems => do
                        pure (.varr (← elems.mapM serializeFn))
                    | _, _ => serializeFn jomqlResultsNode
                  match serialized with
                  | .ok v => pure v
                  | .error _ =>
                      -- transform any errors thrown into a JomqlResultError
                      throw (.resultError
                        ("Invalid scalar value for '" ++ sd.name ++ "'")
                        fieldPath)
                else pure jomqlResultsNode
            | none => pure jomqlResultsNode
        | .objectLookup _ =>
            -- unreachable: the registry stores resolved object types
            pure jomqlResultsNode

-- Concrete schema fragments used by the C8/C9 theorems below.

/-- A scalar carrying a `serialize` function. -/
def serialIntScalar : ScalarDefinition :=
  { name := "serialInt", serialize := some (fun v => .ok v) }

/-- A non-null leaf field of that scalar type. -/
def nonNullLeafField : ObjectTypeDefinitionField :=
  { type := .scalar serialIntScalar, allowNull := false }

/-- The resolver node for that leaf field. -/
def nonNullLeafNode : JomqlResolverNode := .mk nonNullLeafField [] .vnull none

/-- A leaf field with `arrayOptions` set. -/
def arrLeafField : ObjectTypeDefinitionField :=
  { type := .scalar strScalar, allowNull := true,
    arrayOptions := some ⟨false⟩ }

/-- C8: for every leaf (non-nested) resolver node whose field definition has
`allowNull` false and no `arrayOptions`, `validateJomqlResults` on a null
or undefined result raises `JomqlResultError` — regardless of whether the
field's scalar type has a `serialize` function (the node's type and its
transforms are arbitrary here, and the error is raised before
serialization is reached). -/
theorem validateJomqlResults_leaf_null_not_allowed
    (odefs : ObjectTypeDefs) (n : Nat) (v : JValue)
    (node : JomqlResolverNode) (fieldPath : List String)
    (hnested : node.nested = none)
    (hnull : node.typeDef.allowNull = false)
    (harr : node.typeDef.arrayOptions = none)
    (hv : v = .vnull ∨ v = .vundefined) :
    validateJomqlResults odefs (n + 1) v node fieldPath =
      .error (.resultError "Null value not allowed" fieldPath) := by
  rcases hv with hv | hv <;>
    simp [validateJomqlResults, hnested, hnull, harr, hv,
      validateResultFields, validateResultNullish, except_throw,
      except_error_bind]

theorem validateJomqlResults_leaf_null_not_allowed_witness :
    nonNullLeafNode.nested = none ∧
    nonNullLeafNode.typeDef.allowNull = false ∧
    nonNullLeafNode.typeDef.arrayOptions = none ∧
    (JValue.vnull = .vnull ∨ JValue.vnull = .vundefined) ∧
    validateJomqlResults [] 1 .vnull nonNullLeafNode ["posts"] =
      .error (.resultError "Null value not allowed" ["posts"]) :=
  ⟨rfl, rfl, rfl, Or.inl rfl,
    validateJomqlResults_leaf_null_not_allowed [] 0 .vnull nonNullLeafNode
      ["posts"] rfl rfl rfl (Or.inl rfl)⟩

/-- C9: for every field definition with `arrayOptions` set,
`validateResultFields` (the result-shape validator) raises
`JomqlResultError` on every non-array, non-null value, and accepts a null
value exactly when `allowNull` is also true. -/
theorem validateResultFields_array_shape
    (ro : ObjectTypeDefinitionField) (fieldPath : List String)
    (ao : ArrayOptions) (hao : ro.arrayOptions = some ao) :
    (∀ v : JValue, v.isArr = false → v ≠ .vnull →
      ∃ m, validateResultFields v ro fieldPath =
        .error (.resultError m fieldPath)) ∧
    (validateResultFields .vnull ro fieldPath = .ok () ↔
      ro.allowNull = true) := by
  constructor
  · intro v hv hnull
    by_cases hn : ro.allowNull
    · refine ⟨"Array or null expected", ?_⟩
      cases v <;>
        simp_all [validateResultFields, hao, hn, JValue.isArr, except_throw]
    · refine ⟨"Array expected", ?_⟩
      cases v <;>
        simp_all [validateResultFields, hao, hn, JValue.isArr, except_throw]
  · by_cases hn : ro.allowNull <;>
      simp [validateResultFields, hao, hn, except_throw, except_pure]

theorem validateResultFields_array_shape_witness :
    arrLeafField.arrayOptions = some ⟨false⟩ ∧
    ((∀ v : JValue, v.isArr = false → v ≠ .vnull →
      ∃ m, validateResultFields v arrLeafField ["tags"] =
        .error (.resultError m ["tags"])) ∧
    (validateResultFields .vnull arrLeafField ["tags"] = .ok () ↔
      arrLeafField.allowNull = true)) :=
  ⟨rfl, validateResultFields_array_shape arrLeafField ["tags"] ⟨false⟩ rfl⟩

/-!
Heap model for the new `processJomqlResolverTree` (helpers/jomql.ts lines
941-1002). The frame claim about this function concerns object identity —
whether the result tree it returns is a copy of, or the very same object
as, the `jomqlResultsNode` it was handed — so result values are modelled
with explicit references (`HValue.href`) into a heap of objects, and the
function returns both its value and the post-state of the heap. External
resolvers are modelled as pure (they may throw but not touch the heap).
-/

/-- A result-tree value in the heap model. -/
inductive HValue : Type where
  | hnull : HValue
  | hundefined : HValue
  | hbool (b : Bool) : HValue
  | hint (n : Int) : HValue
  | hstr (s : String) : HValue
  | href (r : Nat) : HValue
  deriving DecidableEq, Repr

/-- An allocated plain object. -/
abbrev HObj := List (String × HValue)

/-- The heap: object `r` lives at position `r`. -/
abbrev Heap := List HObj

def hObjGet (kvs : HObj) (k : String) : HValue :=
  match kvs.find? (fun kv => kv.1 = k) with
  | some kv => kv.2
  | none => .hundefined

def hObjSet (kvs : HObj) (k : String) (x : HValue) : HObj :=
  if kvs.any (fun kv => kv.1 = k) then
    kvs.map (fun kv => if kv.1 = k then (k, x) else kv)
  else
    kvs ++ [(k, x)]

/-- `results[field]` in the heap model. -/
def heapGetField (heap : Heap) (v : HValue) (k : String) : HValue :=
  match v with
  | .href r =>
      match heap.get? r with
      | some kvs => hObjGet kvs k
      | none => .hundefined
  | _ => .hundefined

/-- `results[field] = x` in the heap model: mutates the object at `r`. -/
def heapSetField (heap : Heap) (r : Nat) (k : String) (x : HValue) : Heap :=
  match heap.get? r with
  | some kvs => heap.set r (hObjSet kvs k x)
  | none => heap

/-- The object stored at `r`, used to observe mutation. -/
def heapObjAt (heap : Heap) (r : Nat) : Option HObj := heap.get? r

/-- The input record handed to a resolver by `processJomqlResolverTree`
(root resolvers receive the subset without `fieldValue`/`parentValue`,
modelled as `hundefined` there). -/
structure HResolverInput : Type where
  fieldPath : List String
  args : HValue
  query : List (String × HValue)
  fieldValue : HValue
  parentValue : HValue
  data : HValue

/-- A (pure) resolver in the heap model; it may throw. -/
def HResolverFunction : Type := HResolverInput → Except JomqlError HValue

/-- The slice of a field / root-resolver definition that
`processJomqlResolverTree` consults (`isRoot` models
`isRootResolverDefinition`). -/
structure HTypeDef : Type where
  isRoot : Bool := false
  resolver : Option HResolverFunction := none
  defer : Bool := false

/-- A resolver-tree node in the heap model. -/
inductive HResolverNode : Type where
  | mk (typeDef : HTypeDef) (query : List (String × HValue)) (args : HValue)
      (nested : Option (List (String × HResolverNode))) : HResolverNode

def HResolverNode.typeDef : HResolverNode → HTypeDef
  | .mk td _ _ _ => td

def HResolverNode.query : HResolverNode → List (String × HValue)
  | .mk _ q _ _ => q

def HResolverNode.args : HResolverNode → HValue
  | .mk _ _ a _ => a

def HResolverNode.nested :
    HResolverNode → Option (List (String × HResolverNode))
  | .mk _ _ _ ns => ns

/-- The `for (const field in jomqlResolverNode.nested)` loop of
`processJomqlResolverTree` (lines 987-997): for each declared child,
recurse through `proc` (the recursive call at the remaining fuel) on
`results[field]` with `parentNode = results` (the reference `r`), then
write the child's result back into the object at `r` — in place. -/
def processNestedChildren
    (proc : Heap → HValue → HResolverNode → HValue → List String → Bool →
      Except JomqlError (HValue × Heap))
    (r : Nat) (fieldPath : List String) :
    Heap → List (String × HResolverNode) → Except JomqlError Heap
  | heap, [] => pure heap
  | heap, fkv :: rest => do
      let (res, h1) ←
        proc heap (heapGetField heap (.href r) fkv.1) fkv.2 (.href r)
          (fieldPath ++ [fkv.1]) false
      processNestedChildren proc r fieldPath (heapSetField h1 r fkv.1 res) rest

/-- `processJomqlResolverTree` (helpers/jomql.ts lines 941-1002) in the heap
model: root nodes run their root resolver (and stop there unless
`fullTree`); non-root resolver-owning nodes run their resolver (or yield
null under `defer`); nested nodes recurse per declared child and write the
results back into the same results object. -/
def processJomqlResolverTree :
    Nat → Heap → HValue → HResolverNode → HValue → List String → Bool →
    Except JomqlError (HValue × Heap)
  | 0, _, _, _, _, _, _ => .error .outOfFuel
  | n + 1, heap, jomqlResultsNode, node, parentNode, fieldPath, fullTree => do
    -- if it is a root resolver, fetch the results first
    let results ←
      if node.typeDef.isRoot then
        match node.typeDef.resolver with
        | some rf =>
            rf { fieldPath := fieldPath, args := node.args,
                 query := node.query, fieldValue := .hundefined,
                 parentValue := .hundefined, data := .hundefined }
        | none => pure .hundefined
      else pure jomqlResultsNode
    -- if full tree not required, return here
    if node.typeDef.isRoot ∧ ¬fullTree then pure (results, heap)
    else if node.typeDef.resolver.isSome ∧ ¬node.typeDef.isRoot then
      -- if defer, skip resolving
      if node.typeDef.defer then pure (.hnull, heap)
      else
        match node.typeDef.resolver with
        | some rf => do
            let v ←
              rf { fieldPath := fieldPath, args := node.args,
                   query := node.query, fieldValue := results,
                   parentValue := parentNode, data := .hundefined }
            pure (v, heap)
        | none => pure (results, heap)
    else
      match node.nested with
      | some children =>
          match results with
          | .href r =>
              if (heap.get? r).isSome then do
                -- tempReturnValue = results: the same reference, not a copy
                let heapFin ←
                  processNestedChildren (processJomqlResolverTree n) r
                    fieldPath heap children
                pure (.href r, heapFin)
              else pure (results, heap)
          | _ => pure (results, heap)
      | none => pure (results, heap)

theorem except_map_ok {ε α β : Type} (f : α → β) (a : α) :
    (Except.ok a : Except ε α).map f = .ok (f a) := rfl

theorem except_map_error {ε α β : Type} (f : α → β) (e : ε) :
    (Except.error e : Except ε α).map f = .error e := rfl

-- Concrete fragments used by the C3 theorems below.

/-- A child leaf node owning a resolver that returns 2. -/
def hChildNode : HResolverNode :=
  .mk { resolver := some (fun _ => .ok (.hint 2)) } [] .hnull none

/-- A nested (resolver-less) node declaring the single child `f`. -/
def hParentNode : HResolverNode :=
  .mk {} [] .hnull (some [("f", hChildNode)])

/-- A heap holding one object `{ f: 1 }` at reference 0. -/
def heap0 : Heap := [[("f", .hint 1)]]

/-- C3 counterexample: processing a nested node over the object at
reference 0 returns that same reference with the heap changed at it — the
input result object is mutated in place, not left unchanged behind a
copy. -/
theorem processJomqlResolverTree_mutates_input_cex :
    processJomqlResolverTree 2 heap0 (.href 0) hParentNode .hnull [] false =
      .ok (.href 0, [[("f", .hint 2)]]) ∧
    heapObjAt [[("f", .hint 2)]] 0 ≠ heapObjAt heap0 0 :=
  ⟨rfl, by decide⟩

/-- C3 (amended): when `processJomqlResolverTree` reaches a non-root,
resolver-less node with nested children and a structured (object) result,
it recurses per declared child with `resultsNode[child]` and
`parentNode = resultsNode`, and writes each child's result back into the
very result object it was given (the returned value is the same
reference, and the object is mutated in place through
`processNestedChildren`) — the input result object is not copied and is
not left unchanged. -/
theorem processJomqlResolverTree_nested_in_place
    (n : Nat) (heap : Heap) (r : Nat) (node : HResolverNode)
    (parentNode : HValue) (fieldPath : List String) (fullTree : Bool)
    (children : List (String × HResolverNode))
    (hroot : node.typeDef.isRoot = false)
    (hres : node.typeDef.resolver = none)
    (hnested : node.nested = some children)
    (halloc : (heap.get? r).isSome = true) :
    processJomqlResolverTree (n + 1) heap (.href r) node parentNode fieldPath
        fullTree =
      (processNestedChildren (processJomqlResolverTree n) r fieldPath heap
          children).map (fun h2 => (.href r, h2)) := by
  rw [processJomqlResolverTree]
  have hlen : r < heap.length := by
    rcases hg : heap.get? r with _ | kvs
    · rw [hg] at halloc
      simp at halloc
    · exact (List.get?_eq_some.mp hg).1
  rcases h : processNestedChildren (processJomqlResolverTree n) r fieldPath
      heap children with e | h2 <;>
    simp [hroot, hres, hnested, halloc, hlen, h, except_pure, except_ok_bind,
      except_error_bind, except_map_ok, except_map_error]

theorem processJomqlResolverTree_nested_in_place_witness :
    hParentNode.typeDef.isRoot = false ∧
    hParentNode.typeDef.resolver = none ∧
    hParentNode.nested = some [("f", hChildNode)] ∧
    (heap0.get? 0).isSome = true ∧
    processJomqlResolverTree 2 heap0 (.href 0) hParentNode .hnull [] false =
      (processNestedChildren (processJomqlResolverTree 1) 0 [] heap0
          [("f", hChildNode)]).map (fun h2 => (.href 0, h2)) :=
  ⟨rfl, rfl, rfl, by decide,
    processJomqlResolverTree_nested_in_place 1 heap0 0 hParentNode .hnull []
      false [("f", hChildNode)] rfl rfl rfl (by decide)⟩

/-!
Model of `handleAggregatedQueries` (utils/mysql2.ts document lines 382-438,
the middle `helpers/jomql.ts`). The in-place rewrites of `resultsArray`
rows are modelled by returning the array's post-state; dataloader
invocations are recorded in a call log so that "invoked exactly once" is a
statable property. The express `req` argument and the constant `{}`
argument of the dataloader call are omitted from the model. The function
itself never throws (the dataloader is modelled as total), matching the
claim that unmatched keys yield a soft undefined join, never an error.
-/

/-- A dataloader: receives the aggregated `{ id: keys }` object, the
field's sub-query, the parent typename and the field path, and returns the
batch of records. -/
def DataloaderFn : Type := JValue → JValue → String → List String → List JValue

/-- One entry of the middle-document `JomqlResolverObject`, parametric in
the nested-tree type so that the recursive knot can be tied below. -/
structure AggEntry (τ : Type) : Type where
  dataloader : Option DataloaderFn := none
  query : Option JValue := none
  typename : String := ""
  nested : Option τ := none

/-- The middle-document `JomqlResolverObject`: a field-keyed map of
entries. -/
inductive JomqlResolverObject : Type where
  | mk (entries : List (String × AggEntry JomqlResolverObject)) :
      JomqlResolverObject

def JomqlResolverObject.entries :
    JomqlResolverObject → List (String × AggEntry JomqlResolverObject)
  | .mk es => es

/-- A recorded dataloader invocation: the field path it was invoked at, the
deduplicated key set (`[...keySet]`, in insertion order) and the sub-query
it was handed. -/
structure AggCall : Type where
  fieldPath : List String
  keys : List JValue
  query : JValue
  deriving DecidableEq

/-- The `keySet` aggregation of `handleAggregatedQueries` (lines 394-399):
the distinct values held at `field` across the truthy rows, in insertion
order (a JavaScript `Set`). -/
def collectKeys (rows : List JValue) (field : String) : List JValue :=
  rows.foldl
    (fun acc result =>
      if result.jsTruthy then jsSetAdd acc (getField result field) else acc)
    []

/-- The `id -> record` map built from the dataloader's results
(lines 411-415): keyed by each record's `id`, later records overwriting
earlier ones. -/
def buildRecordMap (aggregatedResults : List JValue) :
    List (JValue × JValue) :=
  aggregatedResults.foldl
    (fun m result => jsMapSet m (getField result "id") result) []

/-- The body of one iteration of the `for (const field in
jomqlResolverObject)` loop of `handleAggregatedQueries`: a
dataloader-and-query field batches one fetch and joins the records back
into the rows in place; otherwise a nested field recurses (through
`handle`, the recursive call at the remaining fuel) on the array of the
rows' values at that field, whose post-states are reflected back into the
rows. -/
def aggNestedStep
    (handle : List JValue → JomqlResolverObject → String → JValue →
      List String → List JValue × List AggCall)
    (field : String) (e : AggEntry JomqlResolverObject)
    (args : JValue) (fieldPath : List String) (rows : List JValue) :
    List JValue × List AggCall :=
  match e.nested with
  | some sub =>
      -- build the array of records that will need replacing and go deeper
      let nestedResultsArray := rows.map
        (fun result =>
          if result.jsTruthy then getField result field else .vundefined)
      let handled := handle nestedResultsArray sub e.typename args
        (fieldPath ++ [field])
      (rows.zipWith
        (fun result s =>
          if result.jsTruthy then setField result field s else result)
        handled.1,
       handled.2)
  | none => (rows, [])

def aggStep
    (handle : List JValue → JomqlResolverObject → String → JValue →
      List String → List JValue × List AggCall)
    (field : String) (e : AggEntry JomqlResolverObject) (typename : String)
    (args : JValue) (fieldPath : List String) (rows : List JValue) :
    List JValue × List AggCall :=
  match e.dataloader with
  | some dataloaderFn =>
      match e.query with
      | some q =>
          if q.jsTruthy then
            let keySet := collectKeys rows field
            -- lookup all the ids, exactly once
            let aggregatedResults :=
              dataloaderFn (.vobj [("id", .varr keySet)]) q typename
                (fieldPath ++ [field])
            let recordMap := buildRecordMap aggregatedResults
            -- join the records in memory
            (rows.map
              (fun result =>
                if result.jsTruthy then
                  setField result field
                    (jsMapGet recordMap (getField result field))
                else result),
             [⟨fieldPath ++ [field], keySet, q⟩])
          else aggNestedStep handle field e args fieldPath rows
      | none => aggNestedStep handle field e args fieldPath rows
  | none => aggNestedStep handle field e args fieldPath rows

/-- The `for (const field in jomqlResolverObject)` loop: thread the rows
through every entry in declaration order, accumulating the call log. -/
def handleAggEntries
    (handle : List JValue → JomqlResolverObject → String → JValue →
      List String → List JValue × List AggCall)
    (typename : String) (args : JValue) (fieldPath : List String) :
    List JValue → List (String × AggEntry JomqlResolverObject) →
    List JValue × List AggCall
  | rows, [] => (rows, [])
  | rows, fe :: rest =>
      let stepped := aggStep handle fe.1 fe.2 typename args fieldPath rows
      let remaining :=
        handleAggEntries handle typename args fieldPath stepped.1 rest
      (remaining.1, stepped.2 ++ remaining.2)

/-- `handleAggregatedQueries` (middle document lines 382-438): returns the
post-state of `resultsArray` together with the log of dataloader
invocations. -/
def handleAggregatedQueries :
    Nat → List JValue → JomqlResolverObject → String → JValue →
    List String → List JValue × List AggCall
  | 0, rows, _, _, _, _ => (rows, [])
  | n + 1, rows, t, typename, args, fieldPath =>
      handleAggEntries (handleAggregatedQueries n) typename args fieldPath
        rows t.entries

/-- The join performed on each row: the record whose `id` equals the row's
original key, or `undefined` when no record matches. -/
def joinRecord (records : List JValue) (k : JValue) : JValue :=
  match records.find? (fun r => getField r "id" = k) with
  | some r => r
  | none => .vundefined

theorem jsSetAdd_mem (acc : List JValue) (v x : JValue) :
    x ∈ jsSetAdd acc v ↔ x ∈ acc ∨ x = v := by
  by_cases h : v ∈ acc
  · simp only [jsSetAdd, if_pos h]
    constructor
    · exact Or.inl
    · rintro (hx | rfl)
      · exact hx
      · exact h
  · simp [jsSetAdd, h]

theorem jsSetAdd_nodup (acc : List JValue) (v : JValue) (h : acc.Nodup) :
    (jsSetAdd acc v).Nodup := by
  by_cases hv : v ∈ acc
  · simpa [jsSetAdd, hv] using h
  · simp [jsSetAdd, hv, List.nodup_append, h]

theorem collectKeys_fold_mem (field : String) (rows : List JValue) :
    ∀ (acc : List JValue) (x : JValue),
      x ∈ rows.foldl
        (fun acc r =>
          if r.jsTruthy then jsSetAdd acc (getField r field) else acc) acc ↔
      x ∈ acc ∨ ∃ r ∈ rows, r.jsTruthy = true ∧ getField r field = x := by
  induction rows with
  | nil => simp
  | cons r rest ih =>
      intro acc x
      by_cases h : r.jsTruthy
      · simp only [List.foldl_cons, if_pos h]
        rw [ih (jsSetAdd acc (getField r field)) x]
        simp [jsSetAdd_mem, h]
        tauto
      · simp only [List.foldl_cons, if_neg h]
        rw [ih acc x]
        simp [h]

theorem collectKeys_fold_nodup (field : String) (rows : List JValue) :
    ∀ acc : List JValue, acc.Nodup →
      (rows.foldl
        (fun acc r =>
          if r.jsTruthy then jsSetAdd acc (getField r field) else acc)
        acc).Nodup := by
  induction rows with
  | nil => intro acc h; simpa using h
  | cons r rest ih =>
      intro acc h
      by_cases hr : r.jsTruthy <;>
        simp only [List.foldl_cons, if_pos, if_neg, hr]
      · exact ih _ (jsSetAdd_nodup acc _ h)
      · exact ih _ h

theorem collectKeys_mem (rows : List JValue) (field : String) (x : JValue) :
    x ∈ collectKeys rows field ↔
      ∃ r ∈ rows, r.jsTruthy = true ∧ getField r field = x := by
  rw [collectKeys, collectKeys_fold_mem]
  simp

theorem collectKeys_nodup (rows : List JValue) (field : String) :
    (collectKeys rows field).Nodup :=
  collectKeys_fold_nodup field rows [] List.nodup_nil

theorem objGet_cons (kv : String × JValue) (rest : List (String × JValue))
    (f : String) :
    objGet (kv :: rest) f = if kv.1 = f then kv.2 else objGet rest f := by
  rcases kv with ⟨k0, v0⟩
  by_cases h : k0 = f <;> simp [objGet, List.find?_cons, h]

theorem objGet_map_set_self (k : String) (x : JValue) :
    ∀ kvs : List (String × JValue), k ∈ kvs.map Prod.fst →
      objGet (kvs.map (fun kv => if kv.1 = k then (k, x) else kv)) k = x := by
  intro kvs
  induction kvs with
  | nil => intro h; simp at h
  | cons kv rest ih =>
      intro h
      by_cases hk : kv.1 = k
      · rw [List.map_cons, if_pos hk, objGet_cons]
        simp
      · rw [List.map_cons, if_neg hk, objGet_cons, if_neg hk]
        apply ih
        rw [List.map_cons] at h
        rcases List.mem_cons.mp h with h1 | h1
        · exact absurd h1.symm hk
        · exact h1

theorem objGet_append_self (k : String) (x : JValue) :
    ∀ kvs : List (String × JValue), k ∉ kvs.map Prod.fst →
      objGet (kvs ++ [(k, x)]) k = x := by
  intro kvs
  induction kvs with
  | nil => intro _; simp [objGet_cons]
  | cons kv rest ih =>
      intro h
      rw [List.map_cons] at h
      simp only [List.mem_cons, not_or] at h
      rw [List.cons_append, objGet_cons, if_neg (fun hf => h.1 hf.symm),
        ih h.2]

theorem any_key_mem (k : String) (kvs : List (String × JValue)) :
    kvs.any (fun kv => kv.1 = k) = true ↔ k ∈ kvs.map Prod.fst := by
  rw [List.any_eq_true]
  constructor
  · rintro ⟨kv, hkv, hk⟩
    exact List.mem_map.mpr ⟨kv, hkv, by simpa using hk.symm⟩
  · intro hm
    obtain ⟨kv, hkv, hfst⟩ := List.mem_map.mp hm
    exact ⟨kv, hkv, by simpa using hfst⟩

theorem objGet_objSet_self (k : String) (x : JValue)
    (kvs : List (String × JValue)) : objGet (objSet kvs k x) k = x := by
  by_cases ha : kvs.any (fun kv => kv.1 = k)
  · rw [show objSet kvs k x =
        kvs.map (fun kv => if kv.1 = k then (k, x) else kv) by
      simp [objSet, ha]]
    exact objGet_map_set_self k x kvs ((any_key_mem k kvs).mp ha)
  · rw [show objSet kvs k x = kvs ++ [(k, x)] by simp [objSet, ha]]
    refine objGet_append_self k x kvs (fun hm => ha ?_)
    exact (any_key_mem k kvs).mpr hm

theorem objGet_map_set_ne (k f : String) (x : JValue) (hkf : k ≠ f) :
    ∀ kvs : List (String × JValue),
      objGet (kvs.map (fun kv => if kv.1 = k then (k, x) else kv)) f =
        objGet kvs f := by
  intro kvs
  induction kvs with
  | nil => rfl
  | cons kv rest ih =>
      by_cases hk : kv.1 = k
      · rw [List.map_cons, if_pos hk, objGet_cons, objGet_cons,
          if_neg hkf, if_neg (by rw [hk]; exact hkf)]
        exact ih
      · rw [List.map_cons, if_neg hk, objGet_cons, objGet_cons]
        by_cases hf : kv.1 = f
        · rw [if_pos hf, if_pos hf]
        · rw [if_neg hf, if_neg hf]
          exact ih

theorem objGet_append_ne (k f : String) (x : JValue) (hkf : k ≠ f) :
    ∀ kvs : List (String × JValue),
      objGet (kvs ++ [(k, x)]) f = objGet kvs f := by
  intro kvs
  induction kvs with
  | nil => simp [objGet_cons, objGet, hkf]
  | cons kv rest ih =>
      rw [List.cons_append, objGet_cons, objGet_cons]
      by_cases hf : kv.1 = f
      · rw [if_pos hf, if_pos hf]
      · rw [if_neg hf, if_neg hf]
        exact ih

theorem objGet_objSet_ne (k f : String) (x : JValue) (hkf : k ≠ f)
    (kvs : List (String × JValue)) :
    objGet (objSet kvs k x) f = objGet kvs f := by
  by_cases ha : kvs.any (fun kv => kv.1 = k)
  · rw [show objSet kvs k x =
        kvs.map (fun kv => if kv.1 = k then (k, x) else kv) by
      simp [objSet, ha]]
    exact objGet_map_set_ne k f x hkf kvs
  · rw [show objSet kvs k x = kvs ++ [(k, x)] by simp [objSet, ha]]
    exact objGet_append_ne k f x hkf kvs

theorem getField_setField_self (v : JValue) (k : String) (x : JValue)
    (hv : v.isObj = true) : getField (setField v k x) k = x := by
  cases v <;> simp [JValue.isObj] at hv
  simp [setField, getField, objGet_objSet_self]

theorem getField_setField_ne (v : JValue) (k f : String) (x : JValue)
    (hkf : k ≠ f) : getField (setField v k x) f = getField v f := by
  cases v <;> simp [setField, getField]
  exact objGet_objSet_ne k f x hkf _

theorem setField_isObj (v : JValue) (k : String) (x : JValue)
    (hv : v.isObj = true) : (setField v k x).isObj = true := by
  cases v <;> simp_all [JValue.isObj, setField]

theorem jsMapGet_cons (kv : JValue × JValue) (rest : List (JValue × JValue))
    (k : JValue) :
    jsMapGet (kv :: rest) k = if kv.1 = k then kv.2 else jsMapGet rest k := by
  rcases kv with ⟨k0, v0⟩
  by_cases h : k0 = k <;> simp [jsMapGet, List.find?_cons, h]

theorem anyJ_key_mem (k : JValue) (m : List (JValue × JValue)) :
    m.any (fun kv => kv.1 = k) = true ↔ k ∈ m.map Prod.fst := by
  rw [List.any_eq_true]
  constructor
  · rintro ⟨kv, hkv, hk⟩
    exact List.mem_map.mpr ⟨kv, hkv, by simpa using hk.symm⟩
  · intro hm
    obtain ⟨kv, hkv, hfst⟩ := List.mem_map.mp hm
    exact ⟨kv, hkv, by simpa using hfst⟩

theorem jsMapSet_fresh (m : List (JValue × JValue)) (k v : JValue)
    (h : k ∉ m.map Prod.fst) : jsMapSet m k v = m ++ [(k, v)] := by
  have ha : m.any (fun kv => kv.1 = k) = false := by
    rcases hb : m.any (fun kv => kv.1 = k) with _ | _
    · rfl
    · exact absurd ((anyJ_key_mem k m).mp hb) h
  simp [jsMapSet, ha]

theorem buildRecordMap_fold_append :
    ∀ (records : List JValue) (acc : List (JValue × JValue)),
      (∀ r ∈ records, getField r "id" ∉ acc.map Prod.fst) →
      ((records.map (fun r => getField r "id")).Nodup) →
      records.foldl (fun m r => jsMapSet m (getField r "id") r) acc =
        acc ++ records.map (fun r => (getField r "id", r)) := by
  intro records
  induction records with
  | nil => intro acc _ _; simp
  | cons r0 rest ih =>
      intro acc hfresh hnd
      rw [List.foldl_cons,
        jsMapSet_fresh acc _ r0 (hfresh r0 (List.mem_cons_self r0 rest))]
      rw [List.map_cons] at hnd
      have hnd2 := List.nodup_cons.mp hnd
      rw [ih (acc ++ [(getField r0 "id", r0)]) ?_ hnd2.2]
      · simp
      · intro r hr
        rw [List.map_append, List.mem_append]
        rintro (hin | hin)
        · exact hfresh r (List.mem_cons_of_mem r0 hr) hin
        · simp at hin
          exact hnd2.1 (hin ▸ List.mem_map.mpr ⟨r, hr, rfl⟩)

theorem jsMapGet_buildRecordMap (records : List JValue) (k : JValue)
    (hids : ((records.map (fun r => getField r "id")).Nodup)) :
    jsMapGet (buildRecordMap records) k = joinRecord records k := by
  rw [buildRecordMap,
    buildRecordMap_fold_append records [] (by simp) hids]
  rw [List.nil_append, jsMapGet, joinRecord, List.find?_map]
  have hp : ((fun kv : JValue × JValue => decide (kv.1 = k)) ∘
      fun r => (getField r "id", r)) = fun r => decide (getField r "id" = k) :=
    rfl
  rw [hp]
  rcases hf : records.find? (fun r => decide (getField r "id" = k)) with _ | r
  · rfl
  · rfl

/-- The pointwise invariant tying a row to its post-state under processing
of fields other than `f`: null rows stay null, object rows stay objects
with their `f` value untouched. -/
def RowAgree (f : String) (r r2 : JValue) : Prop :=
  (r = .vnull → r2 = .vnull) ∧
  (r.isObj = true → r2.isObj = true ∧ getField r2 f = getField r f)

theorem rowAgree_refl (f : String) (r : JValue) : RowAgree f r r :=
  ⟨fun h => h, fun h => ⟨h, rfl⟩⟩

theorem rowAgree_trans {f : String} {a b c : JValue}
    (h1 : RowAgree f a b) (h2 : RowAgree f b c) : RowAgree f a c := by
  refine ⟨fun h => h2.1 (h1.1 h), fun h => ?_⟩
  obtain ⟨hb, hgb⟩ := h1.2 h
  obtain ⟨hc, hgc⟩ := h2.2 hb
  exact ⟨hc, hgc.trans hgb⟩

theorem rowAgree_update (f g : String) (hgf : g ≠ f) (r x : JValue) :
    RowAgree f r (if r.jsTruthy then setField r g x else r) := by
  by_cases h : r.jsTruthy
  · rw [if_pos h]
    refine ⟨fun hn => ?_, fun ho => ?_⟩
    · rw [hn] at h
      simp [JValue.jsTruthy] at h
    · exact ⟨setField_isObj r g x ho, getField_setField_ne r g f x hgf⟩
  · rw [if_neg h]
    exact rowAgree_refl f r

theorem forall₂_rowAgree_trans {f : String} :
    ∀ {l1 l2 l3 : List JValue}, List.Forall₂ (RowAgree f) l1 l2 →
      List.Forall₂ (RowAgree f) l2 l3 → List.Forall₂ (RowAgree f) l1 l3 := by
  intro l1 l2 l3 h1
  induction h1 generalizing l3 with
  | nil =>
      intro h2
      cases h2
      exact List.Forall₂.nil
  | cons hab hrest ih =>
      intro h2
      cases h2 with
      | cons hbc hrest2 =>
          exact List.Forall₂.cons (rowAgree_trans hab hbc) (ih hrest2)

theorem forall₂_map_update (f g : String) (hgf : g ≠ f)
    (X : JValue → JValue) (rows : List JValue) :
    List.Forall₂ (RowAgree f) rows
      (rows.map (fun r => if r.jsTruthy then setField r g (X r) else r)) := by
  rw [List.forall₂_map_right_iff]
  exact List.forall₂_same.mpr (fun r _ => rowAgree_update f g hgf r (X r))

theorem forall₂_zipWith_update (f g : String) (hgf : g ≠ f) :
    ∀ (rows sub : List JValue), rows.length = sub.length →
      List.Forall₂ (RowAgree f) rows
        (rows.zipWith
          (fun r s => if r.jsTruthy then setField r g s else r) sub) := by
  intro rows
  induction rows with
  | nil => intro sub _; exact List.Forall₂.nil
  | cons r rest ih =>
      intro sub hlen
      cases sub with
      | nil => simp at hlen
      | cons s sub2 =>
          rw [List.zipWith_cons_cons]
          exact List.Forall₂.cons (rowAgree_update f g hgf r s)
            (ih sub2 (by simpa using hlen))

theorem forall₂_agree_shape {f : String} :
    ∀ {rows rows2 : List JValue}, List.Forall₂ (RowAgree f) rows rows2 →
      (∀ r ∈ rows, r.isObj = true ∨ r = .vnull) →
      ∀ r2 ∈ rows2, r2.isObj = true ∨ r2 = .vnull := by
  intro rows rows2 h
  induction h with
  | nil => intro _ r2 h2; simp at h2
  | cons hab hrest ih =>
      intro hshape r2 h2
      rcases List.mem_cons.mp h2 with rfl | h2
      · rcases hshape _ (List.mem_cons_self _ _) with ho | hn
        · exact Or.inl (hab.2 ho).1
        · exact Or.inr (hab.1 hn)
      · exact ih (fun r hr => hshape r (List.mem_cons_of_mem _ hr)) r2 h2

theorem isObj_truthy (r : JValue) (h : r.isObj = true) : r.jsTruthy = true := by
  cases r <;> simp_all [JValue.isObj, JValue.jsTruthy]

theorem collectKeys_fold_agree (f : String) :
    ∀ {rows rows2 : List JValue}, List.Forall₂ (RowAgree f) rows rows2 →
      (∀ r ∈ rows, r.isObj = true ∨ r = .vnull) →
      ∀ acc : List JValue,
        rows2.foldl
          (fun acc r =>
            if r.jsTruthy then jsSetAdd acc (getField r f) else acc) acc =
        rows.foldl
          (fun acc r =>
            if r.jsTruthy then jsSetAdd acc (getField r f) else acc) acc := by
  intro rows rows2 h
  induction h with
  | nil => intro _ acc; rfl
  | @cons a b l1 l2 hab hrest ih =>
      intro hshape acc
      rw [List.foldl_cons, List.foldl_cons]
      rcases hshape _ (List.mem_cons_self _ _) with ho | hn
      · obtain ⟨ho2, hg⟩ := hab.2 ho
        rw [if_pos (isObj_truthy _ ho2), if_pos (isObj_truthy _ ho), hg]
        exact ih (fun r hr => hshape r (List.mem_cons_of_mem _ hr)) _
      · have hb := hab.1 hn
        rw [hn, hb]
        exact ih (fun r hr => hshape r (List.mem_cons_of_mem _ hr)) _

theorem collectKeys_agree (f : String) {rows rows2 : List JValue}
    (h : List.Forall₂ (RowAgree f) rows rows2)
    (hshape : ∀ r ∈ rows, r.isObj = true ∨ r = .vnull) :
    collectKeys rows2 f = collectKeys rows f :=
  collectKeys_fold_agree f h hshape []

theorem aggNestedStep_length
    (handle : List JValue → JomqlResolverObject → String → JValue →
      List String → List JValue × List AggCall)
    (g : String) (e : AggEntry JomqlResolverObject) (args : JValue)
    (fp : List String) (rows : List JValue)
    (hlen : ∀ rows2 t tn2 a2 fp2,
      (handle rows2 t tn2 a2 fp2).1.length = rows2.length) :
    (aggNestedStep handle g e args fp rows).1.length = rows.length := by
  rcases hs : e.nested with _ | sub
  · simp [aggNestedStep, hs]
  · simp [aggNestedStep, hs, List.length_zipWith, hlen, List.length_map]

theorem aggStep_length
    (handle : List JValue → JomqlResolverObject → String → JValue →
      List String → List JValue × List AggCall)
    (g : String) (e : AggEntry JomqlResolverObject) (tn : String)
    (args : JValue) (fp : List String) (rows : List JValue)
    (hlen : ∀ rows2 t tn2 a2 fp2,
      (handle rows2 t tn2 a2 fp2).1.length = rows2.length) :
    (aggStep handle g e tn args fp rows).1.length = rows.length := by
  rcases hdl : e.dataloader with _ | dl
  · rw [show aggStep handle g e tn args fp rows =
      aggNestedStep handle g e args fp rows by simp [aggStep, hdl]]
    exact aggNestedStep_length handle g e args fp rows hlen
  · rcases hq : e.query with _ | q
    · rw [show aggStep handle g e tn args fp rows =
        aggNestedStep handle g e args fp rows by simp [aggStep, hdl, hq]]
      exact aggNestedStep_length handle g e args fp rows hlen
    · by_cases hqt : q.jsTruthy
      · simp [aggStep, hdl, hq, hqt]
      · rw [show aggStep handle g e tn args fp rows =
          aggNestedStep handle g e args fp rows by
            simp [aggStep, hdl, hq, hqt]]
        exact aggNestedStep_length handle g e args fp rows hlen

theorem aggNestedStep_agree
    (handle : List JValue → JomqlResolverObject → String → JValue →
      List String → List JValue × List AggCall)
    (g f : String) (e : AggEntry JomqlResolverObject) (args : JValue)
    (fp : List String) (rows : List JValue) (hgf : g ≠ f)
    (hlen : ∀ rows2 t tn2 a2 fp2,
      (handle rows2 t tn2 a2 fp2).1.length = rows2.length) :
    List.Forall₂ (RowAgree f) rows (aggNestedStep handle g e args fp rows).1 := by
  rcases hs : e.nested with _ | sub
  · simp only [aggNestedStep, hs]
    exact List.forall₂_same.mpr (fun r _ => rowAgree_refl f r)
  · simp only [aggNestedStep, hs]
    exact forall₂_zipWith_update f g hgf rows _
      (by rw [hlen, List.length_map])

theorem aggStep_agree
    (handle : List JValue → JomqlResolverObject → String → JValue →
      List String → List JValue × List AggCall)
    (g f : String) (e : AggEntry JomqlResolverObject) (tn : String)
    (args : JValue) (fp : List String) (rows : List JValue) (hgf : g ≠ f)
    (hlen : ∀ rows2 t tn2 a2 fp2,
      (handle rows2 t tn2 a2 fp2).1.length = rows2.length) :
    List.Forall₂ (RowAgree f) rows (aggStep handle g e tn args fp rows).1 := by
  rcases hdl : e.dataloader with _ | dl
  · rw [show aggStep handle g e tn args fp rows =
      aggNestedStep handle g e args fp rows by simp [aggStep, hdl]]
    exact aggNestedStep_agree handle g f e args fp rows hgf hlen
  · rcases hq : e.query with _ | q
    · rw [show aggStep handle g e tn args fp rows =
        aggNestedStep handle g e args fp rows by simp [aggStep, hdl, hq]]
      exact aggNestedStep_agree handle g f e args fp rows hgf hlen
    · by_cases hqt : q.jsTruthy
      · simp only [aggStep, hdl, hq, hqt, if_pos]
        exact forall₂_map_update f g hgf _ rows
      · rw [show aggStep handle g e tn args fp rows =
          aggNestedStep handle g e args fp rows by
            simp [aggStep, hdl, hq, hqt]]
        exact aggNestedStep_agree handle g f e args fp rows hgf hlen

theorem aggNestedStep_log
    (handle : List JValue → JomqlResolverObject → String → JValue →
      List String → List JValue × List AggCall)
    (g : String) (e : AggEntry JomqlResolverObject) (args : JValue)
    (fp : List String) (rows : List JValue)
    (hlog : ∀ rows2 t tn2 a2 fp2,
      ∀ c ∈ (handle rows2 t tn2 a2 fp2).2,
        ∃ g2 rest, c.fieldPath = fp2 ++ g2 :: rest) :
    ∀ c ∈ (aggNestedStep handle g e args fp rows).2,
      ∃ rest, c.fieldPath = fp ++ g :: rest := by
  rcases hs : e.nested with _ | sub
  · simp [aggNestedStep, hs]
  · simp only [aggNestedStep, hs]
    intro c hc
    obtain ⟨g2, rest2, hpath⟩ := hlog _ _ _ _ _ c hc
    exact ⟨g2 :: rest2, by rw [hpath, List.append_assoc]; rfl⟩

theorem aggStep_log
    (handle : List JValue → JomqlResolverObject → String → JValue →
      List String → List JValue × List AggCall)
    (g : String) (e : AggEntry JomqlResolverObject) (tn : String)
    (args : JValue) (fp : List String) (rows : List JValue)
    (hlog : ∀ rows2 t tn2 a2 fp2,
      ∀ c ∈ (handle rows2 t tn2 a2 fp2).2,
        ∃ g2 rest, c.fieldPath = fp2 ++ g2 :: rest) :
    ∀ c ∈ (aggStep handle g e tn args fp rows).2,
      ∃ rest, c.fieldPath = fp ++ g :: rest := by
  rcases hdl : e.dataloader with _ | dl
  · rw [show aggStep handle g e tn args fp rows =
      aggNestedStep handle g e args fp rows by simp [aggStep, hdl]]
    exact aggNestedStep_log handle g e args fp rows hlog
  · rcases hq : e.query with _ | q
    · rw [show aggStep handle g e tn args fp rows =
        aggNestedStep handle g e args fp rows by simp [aggStep, hdl, hq]]
      exact aggNestedStep_log handle g e args fp rows hlog
    · by_cases hqt : q.jsTruthy
      · simp only [aggStep, hdl, hq, hqt, if_pos]
        intro c hc
        simp at hc
        exact ⟨[], by rw [hc]⟩
      · rw [show aggStep handle g e tn args fp rows =
          aggNestedStep handle g e args fp rows by
            simp [aggStep, hdl, hq, hqt]]
        exact aggNestedStep_log handle g e args fp rows hlog

theorem handleAggEntries_length
    (handle : List JValue → JomqlResolverObject → String → JValue →
      List String → List JValue × List AggCall)
    (tn : String) (args : JValue) (fp : List String)
    (hlen : ∀ rows2 t tn2 a2 fp2,
      (handle rows2 t tn2 a2 fp2).1.length = rows2.length) :
    ∀ (entries : List (String × AggEntry JomqlResolverObject))
      (rows : List JValue),
      (handleAggEntries handle tn args fp rows entries).1.length =
        rows.length := by
  intro entries
  induction entries with
  | nil => intro rows; rfl
  | cons fe rest ih =>
      intro rows
      rw [handleAggEntries]
      rw [ih, aggStep_length handle fe.1 fe.2 tn args fp rows hlen]

theorem handleAggEntries_agree
    (handle : List JValue → JomqlResolverObject → String → JValue →
      List String → List JValue × List AggCall)
    (tn : String) (args : JValue) (fp : List String) (f : String)
    (hlen : ∀ rows2 t tn2 a2 fp2,
      (handle rows2 t tn2 a2 fp2).1.length = rows2.length) :
    ∀ (entries : List (String × AggEntry JomqlResolverObject)),
      f ∉ entries.map Prod.fst →
      ∀ rows : List JValue,
        List.Forall₂ (RowAgree f) rows
          (handleAggEntries handle tn args fp rows entries).1 := by
  intro entries
  induction entries with
  | nil =>
      intro _ rows
      exact List.forall₂_same.mpr (fun r _ => rowAgree_refl f r)
  | cons fe rest ih =>
      intro hf rows
      rw [List.map_cons, List.mem_cons, not_or] at hf
      rw [handleAggEntries]
      exact forall₂_rowAgree_trans
        (aggStep_agree handle fe.1 f fe.2 tn args fp rows
          (fun hgf => hf.1 hgf.symm) hlen)
        (ih hf.2 _)

theorem handleAggEntries_log
    (handle : List JValue → JomqlResolverObject → String → JValue →
      List String → List JValue × List AggCall)
    (tn : String) (args : JValue) (fp : List String)
    (hlog : ∀ rows2 t tn2 a2 fp2,
      ∀ c ∈ (handle rows2 t tn2 a2 fp2).2,
        ∃ g2 rest, c.fieldPath = fp2 ++ g2 :: rest) :
    ∀ (entries : List (String × AggEntry JomqlResolverObject))
      (rows : List JValue),
      ∀ c ∈ (handleAggEntries handle tn args fp rows entries).2,
        ∃ g rest, g ∈ entries.map Prod.fst ∧ c.fieldPath = fp ++ g :: rest := by
  intro entries
  induction entries with
  | nil => intro rows c hc; simp [handleAggEntries] at hc
  | cons fe rest ih =>
      intro rows c hc
      rw [handleAggEntries] at hc
      rcases List.mem_append.mp hc with hc | hc
      · obtain ⟨r2, hp⟩ := aggStep_log handle fe.1 fe.2 tn args fp rows hlog c hc
        exact ⟨fe.1, r2, by simp, hp⟩
      · obtain ⟨g, r2, hg, hp⟩ := ih _ c hc
        exact ⟨g, r2, by simp [hg], hp⟩

theorem handleAggregatedQueries_length :
    ∀ (fuel : Nat) (rows : List JValue) (t : JomqlResolverObject)
      (tn : String) (args : JValue) (fp : List String),
      (handleAggregatedQueries fuel rows t tn args fp).1.length =
        rows.length := by
  intro fuel
  induction fuel with
  | zero => intro rows t tn args fp; rfl
  | succ n ih =>
      intro rows t tn args fp
      rw [handleAggregatedQueries]
      exact handleAggEntries_length _ tn args fp
        (fun rows2 t2 tn2 a2 fp2 => ih rows2 t2 tn2 a2 fp2) t.entries rows

theorem handleAggregatedQueries_log :
    ∀ (fuel : Nat) (rows : List JValue) (t : JomqlResolverObject)
      (tn : String) (args : JValue) (fp : List String),
      ∀ c ∈ (handleAggregatedQueries fuel rows t tn args fp).2,
        ∃ g rest, c.fieldPath = fp ++ g :: rest := by
  intro fuel
  induction fuel with
  | zero => intro rows t tn args fp c hc; simp [handleAggregatedQueries] at hc
  | succ n ih =>
      intro rows t tn args fp c hc
      rw [handleAggregatedQueries] at hc
      obtain ⟨g, rest, _, hp⟩ := handleAggEntries_log _ tn args fp
        (fun rows2 t2 tn2 a2 fp2 c2 hc2 => ih rows2 t2 tn2 a2 fp2 c2 hc2)
        t.entries rows c hc
      exact ⟨g, rest, hp⟩

theorem handleAggEntries_append
    (handle : List JValue → JomqlResolverObject → String → JValue →
      List String → List JValue × List AggCall)
    (tn : String) (args : JValue) (fp : List String) :
    ∀ (es1 es2 : List (String × AggEntry JomqlResolverObject))
      (rows : List JValue),
      handleAggEntries handle tn args fp rows (es1 ++ es2) =
        ((handleAggEntries handle tn args fp
          (handleAggEntries handle tn args fp rows es1).1 es2).1,
         (handleAggEntries handle tn args fp rows es1).2 ++
          (handleAggEntries handle tn args fp
            (handleAggEntries handle tn args fp rows es1).1 es2).2) := by
  intro es1
  induction es1 with
  | nil => intro es2 rows; simp [handleAggEntries]
  | cons fe rest ih =>
      intro es2 rows
      rw [List.cons_append, handleAggEntries, handleAggEntries, ih]
      simp [List.append_assoc]

theorem list_get_congr {α : Type} {l1 l2 : List α} (h : l1 = l2) (i : Nat)
    (h1 : i < l1.length) (h2 : i < l2.length) :
    l1.get ⟨i, h1⟩ = l2.get ⟨i, h2⟩ := by
  subst h
  rfl

theorem aggStep_dl_eq
    (handle : List JValue → JomqlResolverObject → String → JValue →
      List String → List JValue × List AggCall)
    (g : String) (e : AggEntry JomqlResolverObject) (tn : String)
    (args : JValue) (fp : List String) (rows : List JValue)
    (dl : DataloaderFn) (q : JValue)
    (hdl : e.dataloader = some dl) (hq : e.query = some q)
    (hqt : q.jsTruthy = true) :
    aggStep handle g e tn args fp rows =
      (rows.map (fun result =>
        if result.jsTruthy then
          setField result g
            (jsMapGet
              (buildRecordMap
                (dl (.vobj [("id", .varr (collectKeys rows g))]) q tn
                  (fp ++ [g])))
              (getField result g))
        else result),
       [⟨fp ++ [g], collectKeys rows g, q⟩]) := by
  simp [aggStep, hdl, hq, hqt]

/-- C1: over a sibling result array whose rows are objects or null, a
dataloader-flagged field `f` that is present in the node's query is
batched by `handleAggregatedQueries` through exactly one dataloader
invocation at `fieldPath ++ [f]`, whose key set is precisely the distinct
values held at `f` across the non-null siblings (paired with the field's
sub-query); afterwards each non-null sibling's value at `f` is the
returned record whose `id` matches its original key (the dataloader's
records carrying distinct ids), or `undefined` when no record matches —
and null siblings stay null. The function is total in the model: no error
is ever raised. -/
theorem handleAggregatedQueries_batches_once
    (n : Nat) (pre post : List (String × AggEntry JomqlResolverObject))
    (f : String) (e : AggEntry JomqlResolverObject) (dl : DataloaderFn)
    (q : JValue) (tn : String) (args : JValue) (fp : List String)
    (rows : List JValue)
    (hdl : e.dataloader = some dl) (hq : e.query = some q)
    (hqt : q.jsTruthy = true)
    (hkeys : ((pre ++ (f, e) :: post).map Prod.fst).Nodup)
    (hrows : ∀ r ∈ rows, r.isObj = true ∨ r = .vnull)
    (hids : ((dl (.vobj [("id", .varr (collectKeys rows f))]) q tn
        (fp ++ [f])).map (fun r => getField r "id")).Nodup) :
    ((handleAggregatedQueries (n + 1) rows (.mk (pre ++ (f, e) :: post)) tn
        args fp).2.filter (fun c => c.fieldPath = fp ++ [f])) =
      [⟨fp ++ [f], collectKeys rows f, q⟩] ∧
    (collectKeys rows f).Nodup ∧
    (∀ v, v ∈ collectKeys rows f ↔
      ∃ r ∈ rows, r.isObj = true ∧ getField r f = v) ∧
    (handleAggregatedQueries (n + 1) rows (.mk (pre ++ (f, e) :: post)) tn
      args fp).1.length = rows.length ∧
    (∀ (i : Nat) (hi : i < rows.length)
      (hi2 : i < (handleAggregatedQueries (n + 1) rows
        (.mk (pre ++ (f, e) :: post)) tn args fp).1.length),
      ((rows.get ⟨i, hi⟩).isObj = true →
        getField ((handleAggregatedQueries (n + 1) rows
            (.mk (pre ++ (f, e) :: post)) tn args fp).1.get ⟨i, hi2⟩) f =
          joinRecord
            (dl (.vobj [("id", .varr (collectKeys rows f))]) q tn (fp ++ [f]))
            (getField (rows.get ⟨i, hi⟩) f)) ∧
      (rows.get ⟨i, hi⟩ = .vnull →
        (handleAggregatedQueries (n + 1) rows (.mk (pre ++ (f, e) :: post)) tn
          args fp).1.get ⟨i, hi2⟩ = .vnull)) := by
  -- abbreviations
  have hlenH : ∀ rows2 t tn2 a2 fp2,
      ((handleAggregatedQueries n) rows2 t tn2 a2 fp2).1.length =
        rows2.length :=
    fun rows2 t tn2 a2 fp2 => handleAggregatedQueries_length n rows2 t tn2 a2 fp2
  have hlogH : ∀ rows2 t tn2 a2 fp2,
      ∀ c ∈ ((handleAggregatedQueries n) rows2 t tn2 a2 fp2).2,
        ∃ g rest, c.fieldPath = fp2 ++ g :: rest :=
    fun rows2 t tn2 a2 fp2 c hc =>
      handleAggregatedQueries_log n rows2 t tn2 a2 fp2 c hc
  -- pull apart the key-uniqueness hypothesis
  rw [List.map_append, List.map_cons] at hkeys
  have hkeys2 := List.nodup_append.mp hkeys
  have hfpre : f ∉ pre.map Prod.fst := fun hmem =>
    hkeys2.2.2 hmem (List.mem_cons_self f _)
  have hfpost : f ∉ post.map Prod.fst :=
    (List.nodup_cons.mp hkeys2.2.1).1
  -- unfold the top-level call into the three segments
  have htop : handleAggregatedQueries (n + 1) rows (.mk (pre ++ (f, e) :: post))
      tn args fp =
      handleAggEntries (handleAggregatedQueries n) tn args fp rows
        (pre ++ (f, e) :: post) := by
    rw [handleAggregatedQueries, JomqlResolverObject.entries]
  set A := handleAggEntries (handleAggregatedQueries n) tn args fp rows pre
    with hAdef
  have happ := handleAggEntries_append (handleAggregatedQueries n) tn args fp
    pre ((f, e) :: post) rows
  rw [← hAdef] at happ
  -- the middle entry takes the dataloader branch
  have hstep := aggStep_dl_eq (handleAggregatedQueries n) f e tn args fp A.1
    dl q hdl hq hqt
  -- facts about the prefix segment
  have hA : List.Forall₂ (RowAgree f) rows A.1 :=
    handleAggEntries_agree (handleAggregatedQueries n) tn args fp f hlenH pre
      hfpre rows
  have hkeysEq : collectKeys A.1 f = collectKeys rows f :=
    collectKeys_agree f hA hrows
  rw [hkeysEq] at hstep
  -- name the pieces
  set records := dl (.vobj [("id", .varr (collectKeys rows f))]) q tn
    (fp ++ [f]) with hrecdef
  set stepRows : List JValue := A.1.map (fun result =>
    if result.jsTruthy then
      setField result f
        (jsMapGet (buildRecordMap records) (getField result f))
    else result) with hstepRowsDef
  set B := handleAggEntries (handleAggregatedQueries n) tn args fp stepRows
    post with hBdef
  have hmid : handleAggEntries (handleAggregatedQueries n) tn args fp A.1
      ((f, e) :: post) =
      (B.1, [(⟨fp ++ [f], collectKeys rows f, q⟩ : AggCall)] ++ B.2) := by
    rw [handleAggEntries, hstep]
  have htotal : handleAggregatedQueries (n + 1) rows
      (.mk (pre ++ (f, e) :: post)) tn args fp =
      (B.1, A.2 ++ ([(⟨fp ++ [f], collectKeys rows f, q⟩ : AggCall)] ++ B.2)) := by
    rw [htop, happ, hmid]
  have hB : List.Forall₂ (RowAgree f) stepRows B.1 :=
    handleAggEntries_agree (handleAggregatedQueries n) tn args fp f hlenH post
      hfpost stepRows
  -- (1) the filtered log
  have hfilter : ((handleAggregatedQueries (n + 1) rows
      (.mk (pre ++ (f, e) :: post)) tn args fp).2.filter
        (fun c => c.fieldPath = fp ++ [f])) =
      [⟨fp ++ [f], collectKeys rows f, q⟩] := by
    rw [htotal]
    have hnotpath : ∀ (es : List (String × AggEntry JomqlResolverObject))
        (rows2 : List JValue), f ∉ es.map Prod.fst →
        ∀ c ∈ (handleAggEntries (handleAggregatedQueries n) tn args fp rows2
          es).2, ¬ c.fieldPath = fp ++ [f] := by
      intro es rows2 hf c hc hcp
      obtain ⟨g, rest, hg, hp⟩ := handleAggEntries_log
        (handleAggregatedQueries n) tn args fp hlogH es rows2 c hc
      rw [hp] at hcp
      have := List.append_cancel_left hcp
      rw [List.cons_eq_cons] at this
      exact hf (this.1 ▸ hg)
    have hnilA : A.2.filter (fun c => c.fieldPath = fp ++ [f]) = [] := by
      rw [List.filter_eq_nil_iff]
      intro c hc
      simpa using hnotpath pre rows hfpre c hc
    have hnilB : B.2.filter (fun c => c.fieldPath = fp ++ [f]) = [] := by
      rw [List.filter_eq_nil_iff]
      intro c hc
      simpa using hnotpath post stepRows hfpost c hc
    rw [List.filter_append, List.filter_append, hnilA, hnilB]
    simp
  refine ⟨hfilter, collectKeys_nodup rows f, ?_, ?_, ?_⟩
  -- (2) key-set membership
  · intro v
    rw [collectKeys_mem]
    constructor
    · rintro ⟨r, hr, htr, hgf⟩
      rcases hrows r hr with ho | hn
      · exact ⟨r, hr, ho, hgf⟩
      · rw [hn] at htr
        simp [JValue.jsTruthy] at htr
    · rintro ⟨r, hr, ho, hgf⟩
      exact ⟨r, hr, isObj_truthy r ho, hgf⟩
  -- (3) length preservation
  · rw [htotal]
    show B.1.length = rows.length
    rw [hBdef, handleAggEntries_length (handleAggregatedQueries n) tn args fp
      hlenH post stepRows, hstepRowsDef, List.length_map, hA.length_eq]
  -- (4) per-row join
  · intro i hi hi2
    have hlenA : A.1.length = rows.length := hA.length_eq.symm
    have hiA : i < A.1.length := by rw [hlenA]; exact hi
    have hiS : i < stepRows.length := by
      rw [hstepRowsDef, List.length_map]; exact hiA
    have hiB : i < B.1.length := by rw [← hB.length_eq]; exact hiS
    have hagreeA := hA.get hi hiA
    have hagreeB := hB.get hiS hiB
    have hF2 : List.Forall₂
        (fun a b => b = (fun result =>
          if result.jsTruthy then
            setField result f
              (jsMapGet (buildRecordMap records) (getField result f))
          else result) a) A.1 stepRows := by
      rw [hstepRowsDef, List.forall₂_map_right_iff]
      exact List.forall₂_same.mpr (fun a _ => rfl)
    have hstepGet := hF2.get hiA hiS
    simp only [] at hstepGet
    have hgetTotal : (handleAggregatedQueries (n + 1) rows
        (.mk (pre ++ (f, e) :: post)) tn args fp).1.get ⟨i, hi2⟩ =
        B.1.get ⟨i, hiB⟩ :=
      list_get_congr (by rw [htotal]) i hi2 hiB
    constructor
    · intro ho
      obtain ⟨hoA, hgA⟩ := hagreeA.2 ho
      have htrA : (A.1.get ⟨i, hiA⟩).jsTruthy = true := isObj_truthy _ hoA
      rw [htrA] at hstepGet
      simp only [if_true] at hstepGet
      have hoS : (stepRows.get ⟨i, hiS⟩).isObj = true := by
        rw [hstepGet]
        exact setField_isObj _ f _ hoA
      obtain ⟨hoB, hgB⟩ := hagreeB.2 hoS
      rw [hgetTotal, hgB, hstepGet,
        getField_setField_self _ f _ hoA, hgA,
        jsMapGet_buildRecordMap records _ hids]
    · intro hn
      have hnA : A.1.get ⟨i, hiA⟩ = .vnull := hagreeA.1 hn
      rw [hnA] at hstepGet
      simp [JValue.jsTruthy] at hstepGet
      have hnB : B.1.get ⟨i, hiB⟩ = .vnull := hagreeB.1 hstepGet
      rw [hgetTotal, hnB]

-- Concrete fragments used by the C1 witness below.

/-- A dataloader returning records for ids 1 and 2 (and nothing for 3). -/
def aggAuthorDl : DataloaderFn := fun _ _ _ _ =>
  [.vobj [("id", .vint 1), ("name", .vstr "alice")],
   .vobj [("id", .vint 2), ("name", .vstr "bob")]]

/-- A dataloader-flagged entry with a sub-query. -/
def aggAuthorEntry : AggEntry JomqlResolverObject :=
  { dataloader := some aggAuthorDl,
    query := some (.vobj [("id", .vlookupSymbol)]), typename := "user" }

/-- A plain entry with neither dataloader nor nested tree. -/
def aggPlainEntry : AggEntry JomqlResolverObject := { typename := "misc" }

/-- Five sibling rows: four objects holding three distinct author keys, and
one null row. -/
def aggRows : List JValue :=
  [.vobj [("author", .vint 1)], .vnull, .vobj [("author", .vint 2)],
   .vobj [("author", .vint 1)], .vobj [("author", .vint 3)]]

theorem handleAggregatedQueries_batches_once_witness :
    aggAuthorEntry.dataloader = some aggAuthorDl ∧
    aggAuthorEntry.query = some (.vobj [("id", .vlookupSymbol)]) ∧
    (JValue.vobj [("id", .vlookupSymbol)]).jsTruthy = true ∧
    ((([] ++ ("author", aggAuthorEntry) :: [("misc", aggPlainEntry)]).map
      Prod.fst).Nodup) ∧
    (∀ r ∈ aggRows, r.isObj = true ∨ r = .vnull) ∧
    ((aggAuthorDl (.vobj [("id", .varr (collectKeys aggRows "author"))])
        (.vobj [("id", .vlookupSymbol)]) "post" ([] ++ ["author"])).map
      (fun r => getField r "id")).Nodup ∧
    (((handleAggregatedQueries 1 aggRows
        (.mk ([] ++ ("author", aggAuthorEntry) :: [("misc", aggPlainEntry)]))
        "post" .vnull []).2.filter
          (fun c => c.fieldPath = [] ++ ["author"])) =
      [⟨[] ++ ["author"], collectKeys aggRows "author",
        .vobj [("id", .vlookupSymbol)]⟩] ∧
    (collectKeys aggRows "author").Nodup ∧
    (∀ v, v ∈ collectKeys aggRows "author" ↔
      ∃ r ∈ aggRows, r.isObj = true ∧ getField r "author" = v) ∧
    (handleAggregatedQueries 1 aggRows
      (.mk ([] ++ ("author", aggAuthorEntry) :: [("misc", aggPlainEntry)]))
      "post" .vnull []).1.length = aggRows.length ∧
    (∀ (i : Nat) (hi : i < aggRows.length)
      (hi2 : i < (handleAggregatedQueries 1 aggRows
        (.mk ([] ++ ("author", aggAuthorEntry) :: [("misc", aggPlainEntry)]))
        "post" .vnull []).1.length),
      ((aggRows.get ⟨i, hi⟩).isObj = true →
        getField ((handleAggregatedQueries 1 aggRows
            (.mk ([] ++ ("author", aggAuthorEntry) :: [("misc", aggPlainEntry)]))
            "post" .vnull []).1.get ⟨i, hi2⟩) "author" =
          joinRecord
            (aggAuthorDl (.vobj [("id", .varr (collectKeys aggRows "author"))])
              (.vobj [("id", .vlookupSymbol)]) "post" ([] ++ ["author"]))
            (getField (aggRows.get ⟨i, hi⟩) "author")) ∧
      (aggRows.get ⟨i, hi⟩ = .vnull →
        (handleAggregatedQueries 1 aggRows
          (.mk ([] ++ ("author", aggAuthorEntry) :: [("misc", aggPlainEntry)]))
          "post" .vnull []).1.get ⟨i, hi2⟩ = .vnull))) :=
  ⟨rfl, rfl, by decide, by decide, by decide, by decide,
    handleAggregatedQueries_batches_once 0 [] [("misc", aggPlainEntry)]
      "author" aggAuthorEntry aggAuthorDl (.vobj [("id", .vlookupSymbol)])
      "post" .vnull [] aggRows rfl rfl (by decide) (by decide) (by decide)
      (by decide)⟩
